import Mathlib

/-!
Verification of the Minoca-style kernel physical memory manager
(`kernel/mm/physical.c`, `kernel/mm/x86/mapping.c`) against its
natural-language specification.

The development shallowly embeds the frame database, its operations
(allocation, free, lock/unlock, enable-paging, page-cache association,
bootstrap-time database construction), the x86 unmap path, and the
pager's page-out pass.  Machine integers (UINTN / ULONGLONG) are
modelled as `Nat`; subtraction sites are guarded by the representation
hypotheses that make the C and `Nat` semantics agree (every guarded
theorem carries a concrete witness).  Pointers (paging entries, page
cache entries) are modelled as machine words with the same low-bit
tagging scheme the code uses.
-/

namespace MinocaMm

/-- Memory warning level, `MEMORY_WARNING_LEVEL` (level 1 is the most severe). -/
inductive MemoryWarningLevel where
  | none
  | level1
  | level2
  deriving DecidableEq, Repr

/-- Paging descriptor (`PAGING_ENTRY`) as seen by the frame database.
Modelled from the spec: the structure itself lives in the image-section
subsystem, whose header is not part of this tree; per the spec it carries
a lock count and flags including "paging out in progress" (the section
back-pointer and section offset play no role in the claims below). -/
structure PagingEntry where
  lockCount : Nat
  pagingOut : Bool
  deriving DecidableEq, Repr

/-- Cap on concurrent lock requests, `MAX_PHYSICAL_PAGE_LOCK_COUNT`. -/
def maxPhysicalPageLockCount : Nat := 15

/-- Record word of a free physical page, `PHYSICAL_PAGE_FREE`. -/
def physicalPageFree : Nat := 0

/-- Low tag bit of the record word, `PHYSICAL_PAGE_FLAG_NON_PAGED`. -/
def physicalPageFlagNonPaged : Nat := 1

/-- Record word test: the page is allocated non-paged (`U.Flags & NON_PAGED ≠ 0`). -/
def recNonPaged (w : Nat) : Bool := w % 2 = 1

/-- Record word test: the page is allocated (`U.Free ≠ PHYSICAL_PAGE_FREE`). -/
def recAllocated (w : Nat) : Bool := w ≠ 0

/-- Record word test: the page is allocated and pageable, i.e. the word is a
(nonzero, 2-aligned) pointer to a paging entry. -/
def recPageable (w : Nat) : Bool := w ≠ 0 && w % 2 = 0

/-- One physical memory segment (`PHYSICAL_MEMORY_SEGMENT` followed by its
record array).  Addresses are expressed in page numbers: `startPage` is
`StartAddress >> PageShift` and the segment's `EndAddress` corresponds to
`startPage + recs.length` pages. -/
structure PhysicalMemorySegment where
  startPage : Nat
  freePages : Nat
  recs : List Nat
  deriving DecidableEq, Repr

/-- End page number of a segment (`EndAddress >> PageShift`). -/
def PhysicalMemorySegment.endPage (s : PhysicalMemorySegment) : Nat :=
  s.startPage + s.recs.length

instance : Inhabited PhysicalMemorySegment := ⟨⟨0, 0, []⟩⟩

/-- Frame database state: the segment ring, the global counters, the paging
entry heap (indexed by pointer word), and the memory-warning machinery.
These are the globals of `physical.c`: `MmPhysicalSegmentListHead`,
`MmTotalPhysicalPages`, `MmTotalAllocatedPhysicalPages`,
`MmNonPagedPhysicalPages`, `MmPhysicalMemoryWarningLevel`, the
allocation/free counters, the warning count mask, the four warning
thresholds and the minimum free page count. -/
structure PhysDb where
  segments : List PhysicalMemorySegment
  totalPages : Nat
  allocatedPages : Nat
  nonPagedPages : Nat
  entries : Nat → PagingEntry
  warningLevel : MemoryWarningLevel
  allocationCount : Nat
  freeCount : Nat
  countMask : Nat
  level1High : Nat
  level1Low : Nat
  level2High : Nat
  level2Low : Nat
  minimumFreePages : Nat

/-- Index of the first segment whose page range contains page `pn`; this is
the linear walk `StartAddress ≤ address < EndAddress` that every routine of
`physical.c` performs over `MmPhysicalSegmentListHead`. -/
def findSegmentIdx (segs : List PhysicalMemorySegment) (pn : Nat) : Option Nat :=
  segs.findIdx? (fun s => decide (s.startPage ≤ pn) && decide (pn < s.endPage))

/-- Warning-level re-evaluation on the free path (`MmFreePhysicalPages`,
lines 608-622): levels are checked from the lowest page count to the
highest; returns the new level and whether the event must be pulsed. -/
def freeWarningCheck (level : MemoryWarningLevel) (allocated level2Low level1Low : Nat) :
    MemoryWarningLevel × Bool :=
  if level = MemoryWarningLevel.level2 ∧ allocated < level2Low then
    (MemoryWarningLevel.none, true)
  else if level = MemoryWarningLevel.level1 ∧ allocated < level1Low then
    (MemoryWarningLevel.level2, true)
  else (level, false)

/-- Warning-level re-evaluation on the allocation path
(`MmpAllocatePhysicalPages`, lines 1032-1046): levels are checked from the
highest page count to the lowest; returns the new level and whether the
event must be pulsed. -/
def allocWarningCheck (level : MemoryWarningLevel) (allocated level1High level2High : Nat) :
    MemoryWarningLevel × Bool :=
  if level ≠ MemoryWarningLevel.level1 ∧ allocated ≥ level1High then
    (MemoryWarningLevel.level1, true)
  else if level ≠ MemoryWarningLevel.level2 ∧ allocated ≥ level2High then
    (MemoryWarningLevel.level2, true)
  else (level, false)

/-- Loop-carried state of the release loop in `MmFreePhysicalPages`:
the segment's free count, the three global counters, the (never reset)
`ReleasedPhysicalPage` flag, the `SignalEvent` flag, the warning level, the
free call counter and the list of paging entries queued for destruction. -/
structure FreeState where
  freePages : Nat
  allocated : Nat
  nonPaged : Nat
  released : Bool
  signalEvent : Bool
  level : MemoryWarningLevel
  freeCount : Nat
  destroyed : List Nat
  deriving Repr

/-- Body of the per-page release loop of `MmFreePhysicalPages` (lines
547-627) for one record word `w`; returns the new record word and state.
A non-paged page is freed directly; a pageable page is freed only when its
paging entry does not carry the paging-out flag, in which case the entry is
queued for destruction.  The metrics update is guarded by the
`ReleasedPhysicalPage` flag exactly as in the source: the flag is never
cleared between iterations. -/
def freePageStep (entries : Nat → PagingEntry) (mask level2Low level1Low : Nat)
    (w : Nat) (st : FreeState) : Nat × FreeState :=
  let (w', st1) :=
    if w % 2 = 1 then
      (0, { st with nonPaged := st.nonPaged - 1, released := true })
    else
      if (entries w).pagingOut = false then
        (0, { st with released := true, destroyed := st.destroyed ++ [w] })
      else
        (w, st)
  if st1.released then
    let st2 := { st1 with
                 allocated := st1.allocated - 1,
                 freePages := st1.freePages + 1,
                 freeCount := st1.freeCount + 1 }
    if st2.signalEvent = false ∧ (st2.freeCount &&& mask) = 0 then
      let lv := freeWarningCheck st2.level st2.allocated level2Low level1Low
      (w', { st2 with level := lv.1, signalEvent := lv.2 })
    else
      (w', st2)
  else
    (w', st1)

/-- Release loop of `MmFreePhysicalPages` over the run of records
`[offset, offset + count)`; the run is passed as a list. -/
def freeRun (entries : Nat → PagingEntry) (mask level2Low level1Low : Nat) :
    List Nat → FreeState → List Nat × FreeState
  | [], st => ([], st)
  | w :: t, st =>
    let p := freePageStep entries mask level2Low level1Low w st
    let r := freeRun entries mask level2Low level1Low t p.2
    (p.1 :: r.1, r.2)

/-- Result of `MmFreePhysicalPages`: the new database, the paging entries
destroyed after the lock is released, and whether the warning event was
pulsed. -/
structure FreeResult where
  db : PhysDb
  destroyed : List Nat
  signalEvent : Bool

/-- Translation of `MmFreePhysicalPages(PhysicalAddress, PageCount)`
(`physical.c` lines 469-666), with the physical address expressed as a page
number `pn`.  The segment walk, the per-page release loop, the deferred
paging-entry destruction and the event pulse are modelled; the
page-not-found path performs no state change (debug print and assert
only). -/
def mmFreePhysicalPages (db : PhysDb) (pn count : Nat) : FreeResult :=
  match findSegmentIdx db.segments pn with
  | Option.none => ⟨db, [], false⟩
  | Option.some i =>
    let seg := db.segments.getD i default
    let off := pn - seg.startPage
    let run := (seg.recs.drop off).take count
    let st0 : FreeState :=
      ⟨seg.freePages, db.allocatedPages, db.nonPagedPages, false, false,
       db.warningLevel, db.freeCount, []⟩
    let r := freeRun db.entries db.countMask db.level2Low db.level1Low run st0
    let recs' := seg.recs.take off ++ r.1 ++ seg.recs.drop (off + count)
    let seg' := { seg with freePages := r.2.freePages, recs := recs' }
    ⟨{ db with
       segments := db.segments.set i seg',
       allocatedPages := r.2.allocated,
       nonPagedPages := r.2.nonPaged,
       warningLevel := r.2.level,
       freeCount := r.2.freeCount },
     r.2.destroyed, r.2.signalEvent⟩

/-- Loop-carried counters of the marking loop shared by
`MmpAllocatePhysicalPages` (lines 1006-1015) and
`MmpAllocateIdentityMappablePhysicalPages` (lines 1200-1212): per selected
page the segment free count is decremented and the allocated and non-paged
counters are incremented. -/
structure AllocState where
  freePages : Nat
  allocated : Nat
  nonPaged : Nat
  deriving DecidableEq, Repr

/-- Counter part of the marking loop, iterated once per page of the run. -/
def allocMarkLoop : Nat → AllocState → AllocState
  | 0, st => st
  | n + 1, st => allocMarkLoop n ⟨st.freePages - 1, st.allocated + 1, st.nonPaged + 1⟩

/-- Record part of the marking loop: each record in the run is overwritten
with `PHYSICAL_PAGE_FLAG_NON_PAGED` (the written value does not depend on
the old record, which is asserted to be free; the run lies inside the
record array). -/
def markRecsNonPaged (recs : List Nat) (off count : Nat) : List Nat :=
  recs.take off ++ List.replicate count 1 ++ recs.drop (off + count)

/-- Result of one successful iteration of `MmpAllocatePhysicalPages`. -/
structure AllocResult where
  db : PhysDb
  address : Nat
  signalEvent : Bool

/-- Successful-iteration body of `MmpAllocatePhysicalPages(PageCount,
Alignment)` (lines 1000-1049): `MmpFindPhysicalPages` returned segment `i`
and offset `off` (the search itself mutates no counter for the find-free
search type, only the rotating cursor, so it is passed as a parameter with
its postcondition as a theorem hypothesis).  The run is marked non-paged,
the counters are updated, and the warning level is re-evaluated when the
incremented allocation count has no sample bit set or the page count
reaches the count mask. -/
def mmpAllocatePhysicalPagesFound (db : PhysDb) (i off pageCount : Nat) : AllocResult :=
  let seg := db.segments.getD i default
  let st := allocMarkLoop pageCount ⟨seg.freePages, db.allocatedPages, db.nonPagedPages⟩
  let seg' := { seg with freePages := st.freePages,
                         recs := markRecsNonPaged seg.recs off pageCount }
  let allocationCount' := db.allocationCount + 1
  let check :=
    if (allocationCount' &&& db.countMask) = 0 ∨ pageCount ≥ db.countMask then
      allocWarningCheck db.warningLevel st.allocated db.level1High db.level2High
    else (db.warningLevel, false)
  ⟨{ db with
     segments := db.segments.set i seg',
     allocatedPages := st.allocated,
     nonPagedPages := st.nonPaged,
     warningLevel := check.1,
     allocationCount := allocationCount' },
   seg.startPage + off, check.2⟩

/-- Alignment normalization at the top of `MmpAllocatePhysicalPages`
(lines 970-973): the byte alignment is converted to pages, with zero
meaning no alignment requirement. -/
def allocNormalizeAlignment (alignment pageShift : Nat) : Nat :=
  let a := alignment >>> pageShift
  if a = 0 then 1 else a

/-- Free-page target computed on the allocation-failure path of
`MmpAllocatePhysicalPages` (lines 1057-1060) before `MmRequestPagingOut`:
`FreePageTarget = MmMinimumFreePhysicalPages`, raised to
`PageCount + (Alignment >> PageShift)` if larger — note that `Alignment`
has already been converted to pages at this point. -/
def allocFreePageTarget (minimumFree pageCount alignment pageShift : Nat) : Nat :=
  let a := allocNormalizeAlignment alignment pageShift
  if minimumFree < pageCount + (a >>> pageShift) then
    pageCount + (a >>> pageShift)
  else
    minimumFree

/-- Successful-path body of `MmpAllocateIdentityMappablePhysicalPages`
(lines 1188-1213): identical marking loop, but no warning-level check, no
allocation counter bump and no pager rendezvous. -/
def mmpAllocateIdentityMappableFound (db : PhysDb) (i off pageCount : Nat) : PhysDb :=
  let seg := db.segments.getD i default
  let st := allocMarkLoop pageCount ⟨seg.freePages, db.allocatedPages, db.nonPagedPages⟩
  let seg' := { seg with freePages := st.freePages,
                         recs := markRecsNonPaged seg.recs off pageCount }
  { db with
    segments := db.segments.set i seg',
    allocatedPages := st.allocated,
    nonPagedPages := st.nonPaged }

/-- Status codes distinguished by the modelled routines. -/
inductive KStatus where
  | success
  | resourceInUse
  | notFound
  deriving DecidableEq, Repr

/-- Pointwise update of the paging-entry heap. -/
def updEntry (e : Nat → PagingEntry) (w : Nat) (v : PagingEntry) : Nat → PagingEntry :=
  fun x => if x = w then v else e x

/-- Locking loop of `MmpLockPhysicalPages` (lines 1497-1546) over the run:
non-paged pages are skipped; a pageable page whose paging-entry lock count
is at the cap fails the whole call with `STATUS_RESOURCE_IN_USE`; otherwise
the lock count is incremented, bumping the non-paged counter on a zero to
one transition.  Returns the status, the updated heap and counter, and the
number of pages processed before the failing page (the source's
`PageIndex`, used for the rollback). -/
def lockRun (e : Nat → PagingEntry) (np : Nat) :
    List Nat → KStatus × (Nat → PagingEntry) × Nat × Nat
  | [] => (KStatus.success, e, np, 0)
  | w :: t =>
    if w % 2 = 1 then
      let r := lockRun e np t
      (r.1, r.2.1, r.2.2.1, r.2.2.2 + 1)
    else
      let pe := e w
      if pe.lockCount = maxPhysicalPageLockCount then
        (KStatus.resourceInUse, e, np, 0)
      else
        let np1 := if pe.lockCount = 0 then np + 1 else np
        let e1 := updEntry e w { pe with lockCount := pe.lockCount + 1 }
        let r := lockRun e1 np1 t
        (r.1, r.2.1, r.2.2.1, r.2.2.2 + 1)

/-- Body of the unlock loop of `MmpUnlockPhysicalPages` (lines 1636-1659)
for one record: non-paged pages are skipped; otherwise the lock count is
decremented, and the non-paged counter drops on a one to zero
transition. -/
def unlockStep (s : (Nat → PagingEntry) × Nat) (w : Nat) : (Nat → PagingEntry) × Nat :=
  if w % 2 = 1 then s
  else
    let pe := s.1 w
    (updEntry s.1 w { pe with lockCount := pe.lockCount - 1 },
     if pe.lockCount - 1 = 0 then s.2 - 1 else s.2)

/-- Unlock loop over the run. -/
def unlockRun (run : List Nat) (s : (Nat → PagingEntry) × Nat) : (Nat → PagingEntry) × Nat :=
  run.foldl unlockStep s

/-- Translation of `MmpUnlockPhysicalPages(PhysicalAddress, PageCount)`
(lines 1576-1675); the page-not-found path performs no state change. -/
def mmpUnlockPhysicalPages (db : PhysDb) (pn count : Nat) : PhysDb :=
  match findSegmentIdx db.segments pn with
  | Option.none => db
  | Option.some i =>
    let seg := db.segments.getD i default
    let off := pn - seg.startPage
    let run := (seg.recs.drop off).take count
    let s := unlockRun run (db.entries, db.nonPagedPages)
    { db with entries := s.1, nonPagedPages := s.2 }

/-- Translation of `MmpLockPhysicalPages(PhysicalAddress, PageCount)`
(lines 1427-1574), including the failure rollback: when the status is not
successful and at least one page was processed, the already locked run
front `[0, PageIndex)` is unlocked again via `MmpUnlockPhysicalPages`. -/
def mmpLockPhysicalPages (db : PhysDb) (pn count : Nat) : KStatus × PhysDb :=
  match findSegmentIdx db.segments pn with
  | Option.none => (KStatus.notFound, db)
  | Option.some i =>
    let seg := db.segments.getD i default
    let off := pn - seg.startPage
    let run := (seg.recs.drop off).take count
    let r := lockRun db.entries db.nonPagedPages run
    let dbMid := { db with entries := r.2.1, nonPagedPages := r.2.2.1 }
    if r.1 = KStatus.success then
      (KStatus.success, dbMid)
    else
      if r.2.2.2 ≠ 0 then
        (r.1, mmpUnlockPhysicalPages dbMid pn r.2.2.2)
      else
        (r.1, dbMid)

/-- Per-page body of `MmpEnablePagingOnPhysicalAddress` (lines 1389-1414)
acting on the paging-entry heap and the non-paged counter: with
`LockPages` the supplied entry's lock count is set to one (asserted zero
before), otherwise the non-paged counter is decremented. -/
def enablePagingStep (lockPages : Bool) (s : (Nat → PagingEntry) × Nat) (pe : Nat) :
    (Nat → PagingEntry) × Nat :=
  if lockPages then
    (updEntry s.1 pe { s.1 pe with lockCount := 1 }, s.2)
  else
    (s.1, s.2 - 1)

/-- Translation of `MmpEnablePagingOnPhysicalAddress(PhysicalAddress,
PageCount, PagingEntries, LockPages)` (lines 1303-1425): each record of
the run (asserted non-paged) is overwritten with the corresponding paging
entry pointer, and the heap/counter are updated per page.  The source's
overlap test accepts the segment fully containing the run, which under the
run-in-one-segment hypothesis is the segment found by the linear
containment walk. -/
def mmpEnablePagingOnPhysicalAddress (db : PhysDb) (pn : Nat) (pes : List Nat)
    (lockPages : Bool) : PhysDb :=
  match findSegmentIdx db.segments pn with
  | Option.none => db
  | Option.some i =>
    let seg := db.segments.getD i default
    let off := pn - seg.startPage
    let recs' := seg.recs.take off ++ pes ++ seg.recs.drop (off + pes.length)
    let s := pes.foldl (enablePagingStep lockPages) (db.entries, db.nonPagedPages)
    { db with
      segments := db.segments.set i { seg with recs := recs' },
      entries := s.1,
      nonPagedPages := s.2 }

/-- Tag-bit set of `MmSetPageCacheEntryForPhysicalAddress` (line 725):
`entry | PHYSICAL_PAGE_FLAG_NON_PAGED` (the entry's low bit is asserted
clear, so this is `entry + 1` on the asserted domain). -/
def setBit0 (w : Nat) : Nat := if w % 2 = 1 then w else w + 1

/-- Tag-bit clear of `MmpGetPageCacheEntryForPhysicalAddress` (line 1735):
`entry & ~PHYSICAL_PAGE_FLAG_NON_PAGED`. -/
def clearBit0 (w : Nat) : Nat := w - w % 2

/-- Translation of `MmSetPageCacheEntryForPhysicalAddress(PhysicalAddress,
PageCacheEntry)` (lines 668-743): the record of the page (asserted
non-paged) is overwritten with the page-cache-entry pointer tagged with the
non-paged flag bit. -/
def mmSetPageCacheEntryForPhysicalAddress (db : PhysDb) (pn entry : Nat) : PhysDb :=
  match findSegmentIdx db.segments pn with
  | Option.none => db
  | Option.some i =>
    let seg := db.segments.getD i default
    let off := pn - seg.startPage
    { db with
      segments := db.segments.set i { seg with recs := seg.recs.set off (setBit0 entry) } }

/-- Translation of `MmpGetPageCacheEntryForPhysicalAddress(PhysicalAddress)`
(lines 1677-1753): for a non-paged record the stored word with the flag bit
masked off is returned (possibly the null pointer 0); for any other record,
including pageable ones, the initial null is returned. -/
def mmpGetPageCacheEntryForPhysicalAddress (db : PhysDb) (pn : Nat) : Nat :=
  match findSegmentIdx db.segments pn with
  | Option.none => 0
  | Option.some i =>
    let seg := db.segments.getD i default
    let off := pn - seg.startPage
    let w := seg.recs.getD off 0
    if w % 2 = 1 then clearBit0 w else 0

/-- Record word test: the record contributes to `MmNonPagedPhysicalPages` —
it is either allocated non-paged, or pageable with a positive paging-entry
lock count. -/
def recNpCounted (e : Nat → PagingEntry) (w : Nat) : Bool :=
  recNonPaged w || (recPageable w && decide (0 < (e w).lockCount))

/-- Number of free records of one segment. -/
def segFreeCount (s : PhysicalMemorySegment) : Nat :=
  s.recs.countP (fun w => decide (w = 0))

/-- Sum of the per-segment free counters over the whole database. -/
def dbSumFreePages (db : PhysDb) : Nat :=
  (db.segments.map (·.freePages)).sum

/-- Total number of records in the database. -/
def dbRecCount (db : PhysDb) : Nat :=
  (db.segments.map (·.recs.length)).sum

/-- Number of allocated (nonzero) records in the database. -/
def dbAllocatedCount (db : PhysDb) : Nat :=
  (db.segments.map (fun s => s.recs.countP recAllocated)).sum

/-- Number of records counted by the non-paged counter. -/
def dbNpCount (db : PhysDb) : Nat :=
  (db.segments.map (fun s => s.recs.countP (recNpCounted db.entries))).sum

/-- Counter invariant of the frame database (spec §3 "Invariants" and §8
items 1-2): the per-segment free counts sum to `total − allocated`, and
`non_paged ≤ allocated ≤ total`. -/
def CounterInv (db : PhysDb) : Prop :=
  dbSumFreePages db = db.totalPages - db.allocatedPages ∧
  db.nonPagedPages ≤ db.allocatedPages ∧
  db.allocatedPages ≤ db.totalPages

instance (db : PhysDb) : Decidable (CounterInv db) := by
  unfold CounterInv; infer_instance

/-- Representation ties between the counters and the records that the
counter-invariant preservation proofs rely on: the counters count what the
records say, and a paging entry referenced by a record with the paging-out
flag set has a zero lock count (the pager only selects unlocked victims,
and sets the flag under the database lock). -/
def WfCounters (db : PhysDb) : Prop :=
  db.totalPages = dbRecCount db ∧
  db.allocatedPages = dbAllocatedCount db ∧
  db.nonPagedPages = dbNpCount db ∧
  (∀ s ∈ db.segments, s.freePages = segFreeCount s) ∧
  (∀ s ∈ db.segments, ∀ w ∈ s.recs, recPageable w → (db.entries w).pagingOut →
      (db.entries w).lockCount = 0)

/-! ## Pager page-out pass (`MmpPageOutPhysicalPages`) -/

/-- Outcome classes of one `MmpPageOut` call as distinguished by the pass:
success (`KSUCCESS`), the transient `STATUS_RESOURCE_IN_USE`, and every
other failure status. -/
inductive PageOutStatus where
  | success
  | resourceInUse
  | otherFailure
  deriving DecidableEq, Repr

/-- One victim handed to `MmpPageOut` together with the call's outcome and
the number of pages it reported paged out (`PagesPaged`, which the callee
can set even on partial failure). -/
structure PageOutEvent where
  status : PageOutStatus
  pagesPaged : Nat
  deriving DecidableEq, Repr

/-- Maximum number of page-out failures before the pass gives up,
`PHYSICAL_MEMORY_MAX_PAGE_OUT_FAILURE_COUNT`. -/
def maxPageOutFailureCount : Nat := 10

/-- Number of paged pages after which the pages-freed event is pulsed,
`PAGING_EVENT_SIGNAL_PAGE_COUNT`. -/
def pagingEventSignalPageCount : Nat := 16

/-- Loop-carried state of the page-out pass: the current free page count
(`MmTotalPhysicalPages - MmTotalAllocatedPhysicalPages`, which grows as
victims are written back and freed), `FailureCount`, `PageCountSinceEvent`,
`TotalPagesPaged`, and the number of times `MmPagingFreePagesEvent` has
been signaled. -/
structure PagerState where
  freePages : Nat
  failureCount : Nat
  pageCountSinceEvent : Nat
  totalPagesPaged : Nat
  freeEventSignals : Nat
  deriving DecidableEq, Repr

/-- Per-victim body of the page-out pass (`physical.c` lines 2026-2064):
on success the since-event counter accumulates and pulses the pages-freed
event every `PAGING_EVENT_SIGNAL_PAGE_COUNT` pages; a transient
resource-in-use failure is ignored; any other failure raises the
`Failure` flag, which increments `FailureCount`.  Returns the new state and
the `Failure` flag. -/
def pageOutStep (ev : PageOutEvent) (st : PagerState) : PagerState × Bool :=
  let p :=
    match ev.status with
    | PageOutStatus.success =>
      let pcse := st.pageCountSinceEvent + ev.pagesPaged
      if pcse ≥ pagingEventSignalPageCount then
        ({ st with pageCountSinceEvent := 0,
                   freeEventSignals := st.freeEventSignals + 1 }, false)
      else
        ({ st with pageCountSinceEvent := pcse }, false)
    | PageOutStatus.resourceInUse => (st, false)
    | PageOutStatus.otherFailure => (st, true)
  let st2 := { p.1 with totalPagesPaged := p.1.totalPagesPaged + ev.pagesPaged,
                        freePages := p.1.freePages + ev.pagesPaged }
  let st3 := if p.2 then { st2 with failureCount := st2.failureCount + 1 } else st2
  (st3, p.2)

/-- Main loop of `MmpPageOutPhysicalPages` (lines 1954-2065).  The victim
search and the `MmpPageOut` outcome are supplied by an oracle list:
`none` stands for `MmpFindPhysicalPages` finding no pageable frame (break),
`some ev` for a found victim with outcome `ev`.  Per iteration the target
is clamped to `total − non_paged`, the pass stops when free pages or total
paged pages reach the target, and a failing victim stops the pass once
`FailureCount` reaches the maximum.  Returns the final state and the
unconsumed oracle suffix. -/
def pageOutLoop (totalPages nonPaged : Nat) (target : Nat) :
    List (Option PageOutEvent) → PagerState →
      PagerState × List (Option PageOutEvent)
  | events, st =>
    let tgt := if target > totalPages - nonPaged then totalPages - nonPaged else target
    if st.freePages ≥ tgt ∨ st.totalPagesPaged ≥ tgt then (st, events)
    else
      match events with
      | [] => (st, [])
      | Option.none :: rest => (st, rest)
      | Option.some ev :: rest =>
        let p := pageOutStep ev st
        if p.2 = true ∧ p.1.failureCount ≥ maxPageOutFailureCount then (p.1, rest)
        else pageOutLoop totalPages nonPaged tgt rest p.1

/-- Translation of `MmpPageOutPhysicalPages(FreePagesTarget, IoBuffer,
SwapRegion)` (lines 1892-2080): runs the loop from a fresh pass state and
performs the final pulse of the pages-freed event when a partial batch
remains or no progress at all was made. -/
def mmpPageOutPhysicalPages (totalPages nonPaged freePages0 target : Nat)
    (events : List (Option PageOutEvent)) :
    PagerState × List (Option PageOutEvent) :=
  let r := pageOutLoop totalPages nonPaged target events ⟨freePages0, 0, 0, 0, 0⟩
  if r.1.pageCountSinceEvent ≠ 0 ∨ r.1.totalPagesPaged = 0 then
    ({ r.1 with freeEventSignals := r.1.freeEventSignals + 1 }, r.2)
  else
    r

/-! ## x86 page-table layer (`kernel/mm/x86/mapping.c`) -/

/-- Leaf page-table entry (PTE): the fields of the x86 hardware entry that
`MmpUnmapPages` reads or writes (`Present`, `Dirty`, and the 20-bit frame
number `Entry`; `Entry = 0` encodes an unmapped slot). -/
structure Pte where
  present : Bool
  dirty : Bool
  entry : Nat
  deriving DecidableEq, Repr

/-- The all-zero PTE, written by `*((PULONG)&PageTable[TableIndex]) = 0`. -/
def Pte.zero : Pte := ⟨false, false, 0⟩

/-- Page-directory entry: the fields `MmpUnmapPages` inspects. -/
structure Pde where
  present : Bool
  entry : Nat
  deriving DecidableEq, Repr

/-- Page size on x86 (`PAGE_SIZE`). -/
def pageSize : Nat := 4096

/-- Start of the kernel half of the address space on x86
(`KERNEL_VA_START`, which equals `USER_VA_END`). -/
def kernelVaStart : Nat := 0x80000000

/-- Page-directory index of a virtual address
(`VirtualAddress >> PAGE_DIRECTORY_SHIFT`, shift 22). -/
def dirIndex (va : Nat) : Nat := va / 2 ^ 22

/-- Page-table index of a virtual address
(`(VirtualAddress & PTE_INDEX_MASK) >> PAGE_SHIFT`). -/
def tableIndex (va : Nat) : Nat := va / pageSize % 1024

/-- First page-directory index of the kernel half
(`(UINTN)KERNEL_VA_START >> PAGE_DIRECTORY_SHIFT`). -/
def kernelDirStart : Nat := kernelVaStart / 2 ^ 22

/-- Loop state of the first pass of `MmpUnmapPages`: the current directory
(the self-mapped `X86_PDT`, into which stale kernel entries are synced from
`MmKernelPageDirectory`), the page tables as seen through the self map
(indexed by directory index then table index), `MappedCount` and
`ChangedSomething`. -/
structure UnmapPass1State where
  directory : Nat → Pde
  tables : Nat → Nat → Pte
  mappedCount : Nat
  changedSomething : Bool

/-- Body of the first unmap pass (`mapping.c` lines 1207-1284) for the page
at virtual address `va`: sync a never-seen kernel directory entry from the
kernel directory, skip absent page tables, and for a mapped slot
(`Entry ≠ 0`) count it, record a present-to-absent change, and either zero
the whole PTE (no free, no dirty interest) or just clear the present
bit. -/
def unmapPass1Step (kdir : Nat → Pde) (freeFlag wantDirty : Bool) (va : Nat)
    (s : UnmapPass1State) : UnmapPass1State :=
  let di := dirIndex va
  let dir1 :=
    if kernelDirStart ≤ di ∧ (s.directory di).present = false ∧ (s.directory di).entry = 0 then
      fun j => if j = di then kdir di else s.directory j
    else
      s.directory
  if (dir1 di).present = false then
    { s with directory := dir1 }
  else
    let ti := tableIndex va
    let pte := s.tables di ti
    if pte.entry ≠ 0 then
      let pte' := if freeFlag = false ∧ wantDirty = false then Pte.zero
                  else { pte with present := false }
      { directory := dir1,
        tables := fun j k => if j = di ∧ k = ti then pte' else s.tables j k,
        mappedCount := s.mappedCount + 1,
        changedSomething := s.changedSomething || pte.present }
    else
      { s with directory := dir1 }

/-- First pass of `MmpUnmapPages` over `count` pages starting at `va`. -/
def unmapPass1 (kdir : Nat → Pde) (freeFlag wantDirty : Bool) :
    Nat → Nat → UnmapPass1State → UnmapPass1State
  | _, 0, s => s
  | va, n + 1, s =>
    unmapPass1 kdir freeFlag wantDirty (va + pageSize) n
      (unmapPass1Step kdir freeFlag wantDirty va s)

/-- Loop state of the second pass of `MmpUnmapPages`: the page tables, the
dirty accumulator, and the physical frames freed back to the frame
database (the source batches contiguous frames into runs before calling
`MmFreePhysicalPages`; the batching only groups the same frees). -/
structure UnmapPass2State where
  tables : Nat → Nat → Pte
  pageWasDirty : Bool
  freedFrames : List Nat

/-- Body of the second unmap pass (lines 1314-1356) for the page at `va`:
skip absent directories and empty slots, collect the frame for freeing,
accumulate the dirty bit, and zero the PTE. -/
def unmapPass2Step (dir : Nat → Pde) (freeFlag wantDirty : Bool) (va : Nat)
    (s : UnmapPass2State) : UnmapPass2State :=
  let di := dirIndex va
  if (dir di).present = false then s
  else
    let ti := tableIndex va
    let pte := s.tables di ti
    if pte.entry = 0 then s
    else
      { tables := fun j k => if j = di ∧ k = ti then Pte.zero else s.tables j k,
        pageWasDirty := s.pageWasDirty || (wantDirty && pte.dirty),
        freedFrames := if freeFlag then s.freedFrames ++ [pte.entry] else s.freedFrames }

/-- Second pass of `MmpUnmapPages` over `count` pages starting at `va`. -/
def unmapPass2 (dir : Nat → Pde) (freeFlag wantDirty : Bool) :
    Nat → Nat → UnmapPass2State → UnmapPass2State
  | _, 0, s => s
  | va, n + 1, s =>
    unmapPass2 dir freeFlag wantDirty (va + pageSize) n
      (unmapPass2Step dir freeFlag wantDirty va s)

/-- Result of `MmpUnmapPages`: the final directory and tables, the
resident-set counter, the optional dirty report, and the frames freed. -/
structure UnmapResult where
  directory : Nat → Pde
  tables : Nat → Nat → Pte
  residentSet : Int
  pageWasDirty : Option Bool
  freedFrames : List Nat

/-- Translation of `MmpUnmapPages(VirtualAddress, PageCount, UnmapFlags,
PageWasDirty)` (`mapping.c` lines 1115-1368) acting on the current address
space's directory/tables and resident-set counter.  `freeFlag` models
`UNMAP_FLAG_FREE_PHYSICAL_PAGES` and `wantDirty` a non-null `PageWasDirty`
out-pointer.  TLB invalidation (local or IPI) has no effect on the mapping
state and is not modelled; the second pass runs exactly when frames are to
be freed or the dirty state is requested, and for a user-mode start
address the resident-set counter drops by `MappedCount`. -/
def mmpUnmapPages (dir : Nat → Pde) (kdir : Nat → Pde) (tables : Nat → Nat → Pte)
    (residentSet : Int) (va pageCount : Nat) (freeFlag wantDirty : Bool) :
    UnmapResult :=
  let p1 := unmapPass1 kdir freeFlag wantDirty va pageCount ⟨dir, tables, 0, false⟩
  let second :=
    if wantDirty = true ∨ freeFlag = true then
      let p2 := unmapPass2 p1.directory freeFlag wantDirty va pageCount ⟨p1.tables, false, []⟩
      (p2.tables, if wantDirty then Option.some p2.pageWasDirty else Option.none,
       p2.freedFrames)
    else
      (p1.tables, Option.none, [])
  let resident :=
    if va < kernelVaStart then residentSet - p1.mappedCount else residentSet
  ⟨p1.directory, second.1, resident, second.2.1, second.2.2⟩

/-! ## Frame-database bootstrap
(`MmpInitializePhysicalPageAllocator` and its iteration routine) -/

/-- Bootloader memory descriptor types: the seven types that
`IS_PHYSICAL_MEMORY_TYPE` treats as usable physical memory, and
`reserved`, standing for every other type (all of which the iteration
routine ignores uniformly). -/
inductive MemoryType where
  | free
  | acpiTables
  | loaderTemporary
  | loaderPermanent
  | firmwareTemporary
  | pageTables
  | mmStructures
  | reserved
  deriving DecidableEq, Repr

/-- The `IS_PHYSICAL_MEMORY_TYPE` macro (`physical.c` lines 103-110). -/
def isPhysicalMemoryType : MemoryType → Bool
  | MemoryType.reserved => false
  | _ => true

/-- Modelled from the spec: the `IS_MEMORY_FREE_TYPE` macro lives in a
header outside this tree; per spec §4.1 a record is initialized free
exactly when its descriptor is of the free type. -/
def isMemoryFreeType : MemoryType → Bool
  | MemoryType.free => true
  | _ => false

/-- One entry of the bootloader memory descriptor list (`{base, size,
type}`, in bytes). -/
structure MemoryDescriptor where
  base : Nat
  size : Nat
  type : MemoryType
  deriving DecidableEq, Repr

/-- Highest reachable physical address, `MmMaximumPhysicalAddress` (4 GiB
before PAE support; `MmLimitTotalPhysicalPages` is 0 and
`MmLowestPhysicalPage` is 0 in this tree, so the limit re-derivation and
the lowest-page trimming branches of the iteration routine are inert and
the latter are omitted). -/
def maxPhysicalAddress : Nat := 0x100000000

/-- Size of `PHYSICAL_PAGE` (one 32-bit machine word). -/
def sizeofPhysicalPage : Nat := 4

/-- Size of `PHYSICAL_MEMORY_SEGMENT` (list entry plus two physical
addresses plus the 64-bit free count). -/
def sizeofPhysicalMemorySegment : Nat := 32

/-- Update the last element of a list in place (the second-pass iteration
routine always extends `CurrentSegment`, the most recently created
segment). -/
def updateLast (f : PhysicalMemorySegment → PhysicalMemorySegment) :
    List PhysicalMemorySegment → List PhysicalMemorySegment
  | [] => []
  | [a] => [f a]
  | a :: b :: t => a :: updateLast f (b :: t)

/-- Iteration context of `MmpInitializePhysicalAllocatorIterationRoutine`
(`INIT_PHYSICAL_MEMORY_ITERATOR`) together with the globals the routine
mutates: the built segment list, the allocated/non-paged counters, and
`MmPhysicalPageZeroAllocated`.  `building` models `CurrentPage != NULL`,
i.e. whether this is the second pass. -/
structure InitIterContext where
  totalMemoryBytes : Nat
  totalSegments : Nat
  lastEnd : Nat
  pagesDone : Nat
  totalMemoryPages : Nat
  building : Bool
  segments : List PhysicalMemorySegment
  allocated : Nat
  nonPaged : Nat
  pageZeroAllocated : Bool
  deriving Repr

/-- Accounting tail of the iteration routine (`physical.c` lines
2554-2633) for a descriptor that survived the filters: accumulate the
byte total, open a new segment when not contiguous with the previous
descriptor, and (second pass) initialize `min(pages, remaining)` records —
free records for a free-type descriptor, non-paged allocated ones
otherwise, growing the segment end and the global counters page by page
(the per-page `while` loop is rendered by its count). -/
def initIterAccount (c : InitIterContext) (d : MemoryDescriptor) : InitIterContext :=
  let c := { c with totalMemoryBytes := c.totalMemoryBytes + d.size }
  let c :=
    if c.lastEnd = 0 ∨ c.lastEnd ≠ d.base then
      { c with totalSegments := c.totalSegments + 1,
               segments :=
                 if c.building then c.segments ++ [⟨d.base / pageSize, 0, []⟩]
                 else c.segments }
    else c
  if c.building then
    let pageCount := d.size / pageSize
    let todo := min pageCount (c.totalMemoryPages - c.pagesDone)
    let freeT := isMemoryFreeType d.type
    let segs' := updateLast (fun s =>
        { s with recs := s.recs ++ List.replicate todo (if freeT then 0 else 1),
                 freePages := s.freePages + (if freeT then todo else 0) }) c.segments
    -- CurrentSegment->EndAddress grows by one page per initialized record;
    -- the previous end is the descriptor base for a fresh segment and the
    -- running LastEnd (= the previous EndAddress) otherwise.
    { c with segments := segs',
             allocated := c.allocated + (if freeT then 0 else todo),
             nonPaged := c.nonPaged + (if freeT then 0 else todo),
             pagesDone := c.pagesDone + todo,
             lastEnd := (if c.lastEnd = 0 ∨ c.lastEnd ≠ d.base then d.base else c.lastEnd) +
                        todo * pageSize }
  else
    { c with lastEnd := d.base + d.size }

/-- Translation of `MmpInitializePhysicalAllocatorIterationRoutine`
(lines 2432-2636): non-physical descriptors are ignored; once the page
budget is exhausted nothing more is initialized; descriptors are trimmed
to the maximum physical address; a free descriptor containing page zero is
truncated past page zero (recording `MmPhysicalPageZeroAllocated`) and
dropped entirely if nothing remains.  The routine mutates the descriptor
in place, so the new descriptor is returned alongside the context. -/
def initIterRoutine (c : InitIterContext) (d : MemoryDescriptor) :
    InitIterContext × MemoryDescriptor :=
  if isPhysicalMemoryType d.type = false then (c, d)
  else if c.totalMemoryPages ≠ 0 ∧ c.pagesDone = c.totalMemoryPages then (c, d)
  else if d.base ≥ maxPhysicalAddress then (c, d)
  else
    let d1 :=
      if d.base + d.size > maxPhysicalAddress then
        { d with size := maxPhysicalAddress - d.base }
      else d
    if d1.base = 0 ∧ isMemoryFreeType d1.type then
      let d2 : MemoryDescriptor := { d1 with base := d1.base + pageSize,
                                             size := d1.size - pageSize }
      let c2 := { c with pageZeroAllocated := true }
      if d2.size = 0 then (c2, d2) else (initIterAccount c2 d2, d2)
    else
      (initIterAccount c d1, d1)

/-- The `MmMdIterate` walk over the descriptor list, returning the final
context and the (possibly mutated) list. -/
def initIterate (c : InitIterContext) :
    List MemoryDescriptor → InitIterContext × List MemoryDescriptor
  | [] => (c, [])
  | d :: t =>
    let p := initIterRoutine c d
    let r := initIterate p.1 t
    (r.1, p.2 :: r.2)

/-- Modelled from the spec: `MmpEarlyAllocateMemory` is declared in
`mmp.h`, which is outside this tree; per spec §4.1 the bootstrap allocator
"bites off the front of free descriptors".  It carves the requested pages
from the front of the first free descriptor large enough, retyping the
carved range as MM structures (a usable, non-free physical type), and
fails when no descriptor suffices. -/
def earlyAllocateMemory (pages : Nat) :
    List MemoryDescriptor → Option (List MemoryDescriptor)
  | [] => Option.none
  | d :: t =>
    if isMemoryFreeType d.type = true ∧ pages * pageSize ≤ d.size then
      Option.some (⟨d.base, pages * pageSize, MemoryType.mmStructures⟩ ::
        (if d.size = pages * pageSize then t
         else { d with base := d.base + pages * pageSize,
                       size := d.size - pages * pageSize } :: t))
    else
      (earlyAllocateMemory pages t).map (d :: ·)

/-- The `RtlFindLastSet` helper: one-based index of the most significant
set bit (0 for 0). -/
def rtlFindLastSet (x : Nat) : Nat := if x = 0 then 0 else Nat.log2 x + 1

/-- Translation of `MmpInitializePhysicalPageAllocator(MemoryMap)`
(lines 745-887) with `MmLimitTotalPhysicalPages = 0` (the source
default, so the page-count cap and the maximum-address re-derivation are
inert): first counting pass, sizing and bootstrap allocation of the
segment/record arena, second building pass, and derivation of the
minimum-free count, the four warning thresholds and the warning count
mask.  Returns the built database and the final memory map, or `none` for
`STATUS_NO_MEMORY`. -/
def mmpInitPhysicalPageAllocator (memoryMap : List MemoryDescriptor) :
    Option (PhysDb × List MemoryDescriptor) :=
  let ctx0 : InitIterContext := ⟨0, 0, 0, 0, 0, false, [], 0, 0, false⟩
  let p1 := initIterate ctx0 memoryMap
  let totalPages := p1.1.totalMemoryBytes / pageSize
  let allocationSize := totalPages * sizeofPhysicalPage +
                        p1.1.totalSegments * sizeofPhysicalMemorySegment
  let allocationPageCount := (allocationSize + pageSize - 1) / pageSize
  match earlyAllocateMemory allocationPageCount p1.2 with
  | Option.none => Option.none
  | Option.some map2 =>
    let ctx1 : InitIterContext :=
      { totalMemoryBytes := 0, totalSegments := 0, lastEnd := 0, pagesDone := 0,
        totalMemoryPages := totalPages, building := true, segments := [],
        allocated := 0, nonPaged := 0,
        pageZeroAllocated := p1.1.pageZeroAllocated }
    let p2 := initIterate ctx1 map2
    let maskRaw := totalPages * 1 / 100
    Option.some
      ({ segments := p2.1.segments,
         totalPages := totalPages,
         allocatedPages := p2.1.allocated,
         nonPagedPages := p2.1.nonPaged,
         entries := fun _ => ⟨0, false⟩,
         warningLevel := MemoryWarningLevel.none,
         allocationCount := 0,
         freeCount := 0,
         countMask := 2 ^ (rtlFindLastSet maskRaw - 1) - 1,
         level1High := totalPages * 97 / 100,
         level1Low := totalPages * 95 / 100,
         level2High := totalPages * 90 / 100,
         level2Low := totalPages * 87 / 100,
         minimumFreePages := totalPages * 5 / 100 },
       p2.2)

/-- A database with its segment list replaced. -/
def dbWithSegments (db : PhysDb) (segs : List PhysicalMemorySegment) : PhysDb :=
  { db with segments := segs }

/-- A segment with one record overwritten. -/
def segSetRec (s : PhysicalMemorySegment) (off w : Nat) : PhysicalMemorySegment :=
  { s with recs := s.recs.set off w }

/-- Kernel-directory synchronization applied by the first unmap pass to a
single directory slot (`mapping.c` lines 1217-1223): a never-populated
kernel-half entry is copied from the kernel page directory. -/
def syncOne (kdir : Nat → Pde) (d : Nat → Pde) (di : Nat) : Pde :=
  if kernelDirStart ≤ di ∧ (d di).present = false ∧ (d di).entry = 0 then kdir di
  else d di

/-- A database with the paging-entry heap and non-paged counter replaced
(the shape of the lock/unlock routines' results). -/
def dbWithLocks (db : PhysDb) (e : Nat → PagingEntry) (np : Nat) : PhysDb :=
  { db with entries := e, nonPagedPages := np }

/-- Record run of `count` pages starting at page `pn` inside segment `i`
(the record array slice every per-run loop of `physical.c` walks). -/
def segRun (db : PhysDb) (i pn count : Nat) : List Nat :=
  ((db.segments.getD i default).recs.drop
      (pn - (db.segments.getD i default).startPage)).take count

/-! ## Concrete example states used by the evaluation theorems -/

/-- Total bytes of the physical-memory descriptors of a memory map (what
the first initialization pass accumulates in `TotalMemoryBytes`). -/
def physBytes : List MemoryDescriptor → Nat
  | [] => 0
  | d :: t => (if isPhysicalMemoryType d.type then d.size else 0) + physBytes t

/-- Total pages of the physical-memory descriptors of a memory map, summed
per descriptor (what the second initialization pass hands out). -/
def physPages : List MemoryDescriptor → Nat
  | [] => 0
  | d :: t => (if isPhysicalMemoryType d.type then d.size / pageSize else 0) + physPages t

/-- Paging-entry heap in which every entry is unlocked and marked paging
out (only the entry reached from the example records matters). -/
def pagingOutHeap : Nat → PagingEntry := fun _ => ⟨0, true⟩

/-- Two-frame database: frame 0 is allocated non-paged (record 1), frame 1
is pageable (record 2) with its paging entry carrying the paging-out flag;
counters match the records.  Warning thresholds are far away and the
count mask is zero. -/
def exFreeDb : PhysDb :=
  ⟨[⟨0, 0, [1, 2]⟩], 2, 2, 1, pagingOutHeap, MemoryWarningLevel.none,
   0, 0, 0, 100, 100, 100, 100, 5⟩

/-- Hundred-frame database sitting at warning level 1 with 96 frames
allocated (thresholds 97/95 and 90/87 as derived from the percentages) and
count mask 1; the single segment exposes a free run. -/
def exWarnDb : PhysDb :=
  ⟨[⟨0, 4, [0, 0, 0, 0]⟩], 100, 96, 96, pagingOutHeap,
   MemoryWarningLevel.level1, 0, 0, 1, 97, 95, 90, 87, 5⟩

/-- Page-out oracle: nine hard failures, one success paging one page, one
more hard failure, then another available success. -/
def exPagerEvents : List (Option PageOutEvent) :=
  List.replicate 9 (Option.some ⟨PageOutStatus.otherFailure, 0⟩) ++
    [Option.some ⟨PageOutStatus.success, 1⟩,
     Option.some ⟨PageOutStatus.otherFailure, 0⟩,
     Option.some ⟨PageOutStatus.success, 1⟩]

/-- Consecutive-failure counter as the specification describes it: a
successful page-out resets the count, a transient resource-in-use failure
leaves it alone, any other failure increments it (a `none` oracle entry
attempts no page-out). -/
def consecStep (acc : Nat) (e : Option PageOutEvent) : Nat :=
  match e with
  | Option.none => acc
  | Option.some ev =>
    match ev.status with
    | PageOutStatus.success => 0
    | PageOutStatus.resourceInUse => acc
    | PageOutStatus.otherFailure => acc + 1

/-- Consecutive failures after processing an oracle sequence,
specification-side. -/
def consecFailCount (l : List (Option PageOutEvent)) : Nat :=
  l.foldl consecStep 0

/-- Example page directory: only directory index 0 is present. -/
def exDir : Nat → Pde := fun di => if di = 0 then ⟨true, 1⟩ else ⟨false, 0⟩

/-- Example kernel page directory: empty. -/
def exKdir : Nat → Pde := fun _ => ⟨false, 0⟩

/-- Example page tables: the slot for virtual page 0 is mapped to frame 5
but not present (a paged-out or access-disabled mapping); everything else
is empty. -/
def exTables : Nat → Nat → Pte :=
  fun di ti => if di = 0 ∧ ti = 0 then ⟨false, false, 5⟩ else Pte.zero

/-- Three-frame database for the page-cache association claims: frame 0 is
non-paged with no page-cache entry (record 1), frame 1 is pageable
(record 2), frame 2 is non-paged with page-cache entry 8 attached
(record 9). -/
def exCacheDb : PhysDb :=
  ⟨[⟨0, 0, [1, 2, 9]⟩], 3, 3, 2, (fun _ => ⟨0, false⟩), MemoryWarningLevel.none,
   0, 0, 0, 100, 100, 100, 100, 5⟩

/-- Two-frame database for the lock-overflow claim: frame 0 is pageable
with its paging entry at the lock cap (15), frame 1 is pageable with lock
count 3. -/
def exLockDb : PhysDb :=
  ⟨[⟨0, 0, [2, 4]⟩], 2, 2, 1,
   (fun w => if w = 2 then ⟨15, false⟩ else if w = 4 then ⟨3, false⟩ else ⟨0, false⟩),
   MemoryWarningLevel.none, 0, 0, 0, 100, 100, 100, 100, 5⟩

/-- Two-frame database for the lock/unlock symmetry claim: frame 0 is
non-paged, frame 1 is pageable with lock count 3. -/
def exLockOkDb : PhysDb :=
  ⟨[⟨0, 0, [1, 4]⟩], 2, 2, 2,
   (fun w => if w = 4 then ⟨3, false⟩ else ⟨0, false⟩),
   MemoryWarningLevel.none, 0, 0, 0, 100, 100, 100, 100, 5⟩

/-- The spec's boot scenario E1: 4 KiB reserved followed by free memory up
to 64 MiB. -/
def e1BootMap : List MemoryDescriptor :=
  [⟨0, 4096, MemoryType.reserved⟩, ⟨4096, 0x4000000 - 4096, MemoryType.free⟩]

/-- Boot map whose single free descriptor contains frame 0. -/
def zeroFreeBootMap : List MemoryDescriptor :=
  [⟨0, 0x4000000, MemoryType.free⟩]

/-- Minimal boot map for evaluating the initialization path: one reserved
page followed by two pages of free memory. -/
def tinyBootMap : List MemoryDescriptor :=
  [⟨0, 4096, MemoryType.reserved⟩, ⟨4096, 8192, MemoryType.free⟩]

/-! ## Theorems -/

/-- C1 — `free_pages` on a run whose second frame is pageable with the
paging-out flag set: because `ReleasedPhysicalPage` is never cleared
between loop iterations, the paging-out frame's record stays allocated
(word 2) yet the allocated counter is decremented and the segment free
count incremented on its account as well (both move by two, not one), and
the non-paged counter drops only for the first frame.  This evaluates the
code at the failing input of the claim. -/
theorem C1_free_pages_sticky_released_flag :
    (mmFreePhysicalPages exFreeDb 0 2).db.allocatedPages = 0 ∧
    ((mmFreePhysicalPages exFreeDb 0 2).db.segments.getD 0 default).recs = [0, 2] ∧
    ((mmFreePhysicalPages exFreeDb 0 2).db.segments.getD 0 default).freePages = 2 ∧
    (mmFreePhysicalPages exFreeDb 0 2).db.nonPagedPages = 0 ∧
    (mmFreePhysicalPages exFreeDb 0 2).destroyed = [] := by
  decide

/-- C5 — the page-out target issued on an allocation miss: for a one-page
request with 64 KiB alignment (16 pages) and minimum-free threshold 5, the
code shifts the already-page-converted alignment by the page shift again
and requests a target of 5, where the claim's `max(min_free, n + align)`
is 17. -/
theorem C5_free_page_target_shifts_alignment_twice :
    allocFreePageTarget 5 1 65536 12 = 5 ∧
    allocNormalizeAlignment 65536 12 = 16 ∧
    max 5 (1 + allocNormalizeAlignment 65536 12) = 17 := by
  decide

/-- C4 counterexample — an allocation at warning level 1 that does not
cross the level-1 low threshold pulses the warning event anyway: in
`exWarnDb` (level 1, 96 of 100 allocated, mask 1) a one-page allocation
samples because the page count reaches the count mask (the allocation
counter bits are nonzero), finds the level-2 guard satisfied, lowers the
level to 2 and fires, while the claim requires no re-evaluation and no
event here. -/
theorem C4_warn1_allocation_fires_event :
    (mmpAllocatePhysicalPagesFound exWarnDb 0 0 1).signalEvent = true ∧
    (mmpAllocatePhysicalPagesFound exWarnDb 0 0 1).db.warningLevel =
      MemoryWarningLevel.level2 ∧
    ((exWarnDb.allocationCount + 1) &&& exWarnDb.countMask) ≠ 0 ∧
    exWarnDb.warningLevel = MemoryWarningLevel.level1 ∧
    exWarnDb.level1Low ≤ (mmpAllocatePhysicalPagesFound exWarnDb 0 0 1).db.allocatedPages := by
  decide

/-- C8 counterexample — the failure counter is cumulative, not
consecutive: on `exPagerEvents` (nine hard failures, a success, another
hard failure, another success available) the pass aborts after the
eleventh victim with `FailureCount = 10` and one oracle entry unconsumed,
although the consecutive-failure count of every processed prefix stays
below 10 (the success did not reset the counter), and the free-page goal
is still unmet. -/
theorem C8_failure_counter_not_reset_by_success :
    (mmpPageOutPhysicalPages 1000 0 0 100 exPagerEvents).2 =
      [Option.some ⟨PageOutStatus.success, 1⟩] ∧
    (mmpPageOutPhysicalPages 1000 0 0 100 exPagerEvents).1.failureCount = 10 ∧
    (mmpPageOutPhysicalPages 1000 0 0 100 exPagerEvents).1.freePages < 100 ∧
    (mmpPageOutPhysicalPages 1000 0 0 100 exPagerEvents).1.totalPagesPaged < 100 ∧
    ((List.range (exPagerEvents.length + 1)).all
      (fun k => consecFailCount (exPagerEvents.take k) < maxPageOutFailureCount)) = true := by
  decide

/-- C2 counterexample — the resident-set counter drops by the number of
mapped entries, not by the number of previously-present entries: unmapping
one user page whose PTE carries frame 5 with the present bit clear
decrements the counter from 1 to 0 although zero entries in the range were
present before the call. -/
theorem C2_resident_set_counts_mapped_not_present :
    (mmpUnmapPages exDir exKdir exTables 1 0 1 false false).residentSet = 0 ∧
    (exTables 0 0).present = false ∧
    (exTables 0 0).entry = 5 := by
  constructor
  · rfl
  · decide

set_option maxRecDepth 8000 in
/-- C9 counterexample — frame 0 lying in a free descriptor is not
"recorded as allocated while remaining part of the page totals": booting
from a single free descriptor `[0, 64 MiB)` yields a database of 16383
total pages (frame 0 excluded from the totals) whose only segment starts
at page 1, so no record for frame 0 exists at all; the truncation is
recorded in the page-zero flag, and the allocated pages are the 17
bootstrap-arena pages, not frame 0. -/
theorem C9_frame_zero_truncated_out_of_totals :
    ((mmpInitPhysicalPageAllocator zeroFreeBootMap).map
        (fun p => (p.1.totalPages, p.1.allocatedPages,
                   p.1.segments.map (fun s => (s.startPage, s.endPage))))) =
      Option.some (16383, 17, [(1, 16384)]) ∧
    ((initIterate ⟨0, 0, 0, 0, 0, false, [], 0, 0, false⟩ zeroFreeBootMap).1.pageZeroAllocated
      = true) := by
  constructor
  · norm_num [mmpInitPhysicalPageAllocator, initIterate, initIterRoutine,
      initIterAccount, earlyAllocateMemory, updateLast, zeroFreeBootMap,
      isPhysicalMemoryType, isMemoryFreeType, maxPhysicalAddress, pageSize,
      sizeofPhysicalPage, sizeofPhysicalMemorySegment,
      PhysicalMemorySegment.endPage, List.length_append, List.length_replicate]
  · norm_num [initIterate, initIterRoutine, initIterAccount, zeroFreeBootMap,
      isPhysicalMemoryType, isMemoryFreeType, maxPhysicalAddress, pageSize]

/-- C9 amended — a free descriptor containing frame 0 is truncated past
frame 0 (recording the page-zero flag) and only the remainder is
accounted, so frame 0 gets no record and is excluded from the totals; and
the E1 boot map (4 KiB reserved, then free up to 64 MiB) yields a database
with `total = 16383`, one segment spanning 4 KiB..64 MiB (pages 1 to
16384), and `allocated = 17 ≥ 1` — the bootstrap MM-structure carve, not a
frame-0 record. -/
theorem C9_frame_zero_carve_and_e1_boot :
    (∀ c : InitIterContext, ∀ d : MemoryDescriptor,
      d.type = MemoryType.free → d.base = 0 → d.size ≤ maxPhysicalAddress →
      pageSize < d.size →
      (c.totalMemoryPages = 0 ∨ c.pagesDone ≠ c.totalMemoryPages) →
      initIterRoutine c d =
        (initIterAccount { c with pageZeroAllocated := true }
           ⟨pageSize, d.size - pageSize, MemoryType.free⟩,
         ⟨pageSize, d.size - pageSize, MemoryType.free⟩)) ∧
    ((mmpInitPhysicalPageAllocator e1BootMap).map
        (fun p => (p.1.totalPages, p.1.allocatedPages,
                   p.1.segments.map (fun s => (s.startPage, s.endPage))))) =
      Option.some (16383, 17, [(1, 16384)]) := by
  constructor
  · intro c d htype hbase hmax hsize hbudget
    obtain ⟨b, sz, ty⟩ := d
    simp only at htype hbase
    subst htype
    subst hbase
    simp only [maxPhysicalAddress, pageSize] at hmax hsize
    have hc : ¬ (c.totalMemoryPages ≠ 0 ∧ c.pagesDone = c.totalMemoryPages) := by
      rcases hbudget with h | h <;> simp [h]
    have h3 : ¬ (4294967296 < sz) := by omega
    have h4 : ¬ (sz - 4096 = 0) := by omega
    simp [initIterRoutine, isPhysicalMemoryType, isMemoryFreeType,
      maxPhysicalAddress, pageSize, hc, h3, h4]
  · norm_num [mmpInitPhysicalPageAllocator, initIterate, initIterRoutine,
      initIterAccount, earlyAllocateMemory, updateLast, e1BootMap,
      isPhysicalMemoryType, isMemoryFreeType, maxPhysicalAddress, pageSize,
      sizeofPhysicalPage, sizeofPhysicalMemorySegment,
      PhysicalMemorySegment.endPage, List.length_append, List.length_replicate]

/-- Closed form of the allocation marking loop counters. -/
theorem allocMarkLoop_eq (n : Nat) (st : AllocState) :
    allocMarkLoop n st = ⟨st.freePages - n, st.allocated + n, st.nonPaged + n⟩ := by
  induction n generalizing st with
  | zero => simp [allocMarkLoop]
  | succ k ih =>
    rw [allocMarkLoop, ih]
    obtain ⟨f, a, np⟩ := st
    simp only [AllocState.mk.injEq]
    omega

/-- Once the free loop has pulsed the warning event, later iterations of
the same call neither pulse again nor move the warning level. -/
theorem freePageStep_signal_sticky (entries : Nat → PagingEntry)
    (mask level2Low level1Low w : Nat) (st : FreeState)
    (h : st.signalEvent = true) :
    (freePageStep entries mask level2Low level1Low w st).2.signalEvent = true ∧
    (freePageStep entries mask level2Low level1Low w st).2.level = st.level := by
  unfold freePageStep
  split_ifs <;> simp_all
  split_ifs <;> simp_all

/-- Signal stickiness extended over a whole free run. -/
theorem freeRun_signal_sticky (entries : Nat → PagingEntry)
    (mask level2Low level1Low : Nat) (run : List Nat) (st : FreeState)
    (h : st.signalEvent = true) :
    (freeRun entries mask level2Low level1Low run st).2.signalEvent = true ∧
    (freeRun entries mask level2Low level1Low run st).2.level = st.level := by
  induction run generalizing st with
  | nil => exact ⟨h, rfl⟩
  | cons w t ih =>
    rw [freeRun]
    have hs := freePageStep_signal_sticky entries mask level2Low level1Low w st h
    have ht := ih (freePageStep entries mask level2Low level1Low w st).2 hs.1
    exact ⟨ht.1, ht.2.trans hs.2⟩

/-- C4 amended — the warning machinery as the code implements it: (1)/(2)
both re-evaluation helpers pulse exactly when they change the level;
(3) an allocation sampled at warning level 1 lowers the level to 2 (and
pulses) whenever the allocated count still reaches the level-2 high
threshold — there is no allocation-side hysteresis holding level 1;
(4) an allocation sampled below level 1 raises to level 1 at the level-1
high threshold; (5)/(6) the free path lowers level 2 to none only below
the level-2 low threshold and level 1 to level 2 only below the level-1
low threshold; (7) an allocate call pulses the event iff its sample
qualifies — incremented allocation counter with no mask bit set, or page
count at least the mask — and the check fires on the post-allocation
count; (8) a free call pulses at most once: after a pulse the level is
frozen for the rest of the call. -/
theorem C4_warning_level_machine :
    (∀ l : MemoryWarningLevel, ∀ a h1 h2 : Nat,
      (allocWarningCheck l a h1 h2).2 = true ↔ (allocWarningCheck l a h1 h2).1 ≠ l) ∧
    (∀ l : MemoryWarningLevel, ∀ a l2 l1 : Nat,
      (freeWarningCheck l a l2 l1).2 = true ↔ (freeWarningCheck l a l2 l1).1 ≠ l) ∧
    (∀ a h1 h2 : Nat,
      allocWarningCheck MemoryWarningLevel.level1 a h1 h2 =
        if h2 ≤ a then (MemoryWarningLevel.level2, true)
        else (MemoryWarningLevel.level1, false)) ∧
    (∀ l : MemoryWarningLevel, ∀ a h1 h2 : Nat, l ≠ MemoryWarningLevel.level1 → h1 ≤ a →
      allocWarningCheck l a h1 h2 = (MemoryWarningLevel.level1, true)) ∧
    (∀ a l2 l1 : Nat,
      freeWarningCheck MemoryWarningLevel.level2 a l2 l1 =
        if a < l2 then (MemoryWarningLevel.none, true)
        else (MemoryWarningLevel.level2, false)) ∧
    (∀ a l2 l1 : Nat,
      freeWarningCheck MemoryWarningLevel.level1 a l2 l1 =
        if a < l1 then (MemoryWarningLevel.level2, true)
        else (MemoryWarningLevel.level1, false)) ∧
    (∀ db : PhysDb, ∀ i off n : Nat,
      ((mmpAllocatePhysicalPagesFound db i off n).signalEvent = true ↔
        ((((db.allocationCount + 1) &&& db.countMask) = 0 ∨ db.countMask ≤ n) ∧
         (allocWarningCheck db.warningLevel (db.allocatedPages + n)
            db.level1High db.level2High).2 = true))) ∧
    (∀ entries : Nat → PagingEntry, ∀ mask l2 l1 : Nat, ∀ run : List Nat,
      ∀ st : FreeState, st.signalEvent = true →
      (freeRun entries mask l2 l1 run st).2.signalEvent = true ∧
      (freeRun entries mask l2 l1 run st).2.level = st.level) := by
  refine ⟨?_, ?_, ?_, ?_, ?_, ?_, ?_, ?_⟩
  · intro l a h1 h2
    cases l <;> simp [allocWarningCheck] <;> split_ifs <;> simp_all
  · intro l a l2 l1
    cases l <;> simp [freeWarningCheck] <;> split_ifs <;> simp_all
  · intro a h1 h2
    simp [allocWarningCheck, ge_iff_le]
  · intro l a h1 h2 hl ha
    cases l <;> simp_all [allocWarningCheck, ge_iff_le]
  · intro a l2 l1
    simp [freeWarningCheck]
  · intro a l2 l1
    simp [freeWarningCheck]
  · intro db i off n
    simp only [mmpAllocatePhysicalPagesFound, allocMarkLoop_eq, ge_iff_le]
    split
    next h => simp [h]
    next h => simp [h]
  · exact freeRun_signal_sticky

/-- C4 witness — the amended machine evaluated at concrete states: a
sampled allocation at level none with 97 of 100 pages allocated raises to
level 1 and pulses, and a free call that has already pulsed keeps its
level across further pages. -/
theorem C4_warning_level_machine_witness :
    allocWarningCheck MemoryWarningLevel.none 97 97 90 =
      (MemoryWarningLevel.level1, true) ∧
    (freeRun pagingOutHeap 0 87 95 [1]
        ⟨0, 5, 1, true, true, MemoryWarningLevel.level2, 0, []⟩).2.level =
      MemoryWarningLevel.level2 := by
  constructor
  · exact C4_warning_level_machine.2.2.2.1 MemoryWarningLevel.none 97 97 90
      (by decide) (by decide)
  · exact (C4_warning_level_machine.2.2.2.2.2.2.2 pagingOutHeap 0 87 95 [1]
      ⟨0, 5, 1, true, true, MemoryWarningLevel.level2, 0, []⟩ rfl).2

/-- C9 witness — the frame-zero carve applied to a concrete two-page free
descriptor at base 0 under the first counting pass. -/
theorem C9_frame_zero_carve_witness :
    initIterRoutine ⟨0, 0, 0, 0, 0, false, [], 0, 0, false⟩ ⟨0, 8192, MemoryType.free⟩ =
      (initIterAccount ⟨0, 0, 0, 0, 0, false, [], 0, 0, true⟩
         ⟨4096, 4096, MemoryType.free⟩,
       ⟨4096, 4096, MemoryType.free⟩) := by
  exact C9_frame_zero_carve_and_e1_boot.1 ⟨0, 0, 0, 0, 0, false, [], 0, 0, false⟩
    ⟨0, 8192, MemoryType.free⟩ rfl rfl (by decide) (by decide) (Or.inl rfl)

/-- Failure bookkeeping of one page-out step: the failure counter moves
exactly on a non-transient failure, and the failure flag marks exactly
those. -/
theorem pageOutStep_failure (ev : PageOutEvent) (st : PagerState) :
    (pageOutStep ev st).1.failureCount =
      st.failureCount + (if ev.status = PageOutStatus.otherFailure then 1 else 0) ∧
    ((pageOutStep ev st).2 = true ↔ ev.status = PageOutStatus.otherFailure) := by
  obtain ⟨status, paged⟩ := ev
  cases status <;> simp [pageOutStep]
  split_ifs <;> simp_all

/-- C8 amended — within one page-out pass the failure counter is
cumulative: (1) the counter increments exactly on a page-out failure other
than the transient resource-in-use status (in particular a success does
not reset it); (2) the failure flag marks exactly those failures; with the
free-page goal still unmet, (3) a successful or transient victim never
ends the pass, (4) a non-transient failure ends the pass exactly when it
brings the cumulative counter to the maximum of 10, and (5) continues the
pass otherwise. -/
theorem C8_page_out_failure_accounting :
    (∀ ev : PageOutEvent, ∀ st : PagerState,
      (pageOutStep ev st).1.failureCount =
        st.failureCount + (if ev.status = PageOutStatus.otherFailure then 1 else 0)) ∧
    (∀ ev : PageOutEvent, ∀ st : PagerState,
      ((pageOutStep ev st).2 = true ↔ ev.status = PageOutStatus.otherFailure)) ∧
    (∀ totalPages nonPaged target : Nat, ∀ ev : PageOutEvent,
      ∀ rest : List (Option PageOutEvent), ∀ st : PagerState,
      ¬ (st.freePages ≥ (if target > totalPages - nonPaged then totalPages - nonPaged
                         else target) ∨
         st.totalPagesPaged ≥ (if target > totalPages - nonPaged then
                                 totalPages - nonPaged else target)) →
      ((ev.status ≠ PageOutStatus.otherFailure →
        pageOutLoop totalPages nonPaged target (Option.some ev :: rest) st =
          pageOutLoop totalPages nonPaged
            (if target > totalPages - nonPaged then totalPages - nonPaged else target)
            rest (pageOutStep ev st).1) ∧
       (ev.status = PageOutStatus.otherFailure →
        maxPageOutFailureCount ≤ st.failureCount + 1 →
        pageOutLoop totalPages nonPaged target (Option.some ev :: rest) st =
          ((pageOutStep ev st).1, rest)) ∧
       (ev.status = PageOutStatus.otherFailure →
        st.failureCount + 1 < maxPageOutFailureCount →
        pageOutLoop totalPages nonPaged target (Option.some ev :: rest) st =
          pageOutLoop totalPages nonPaged
            (if target > totalPages - nonPaged then totalPages - nonPaged else target)
            rest (pageOutStep ev st).1))) := by
  refine ⟨fun ev st => (pageOutStep_failure ev st).1,
          fun ev st => (pageOutStep_failure ev st).2, ?_⟩
  intro totalPages nonPaged target ev rest st hgoal
  have hflag := (pageOutStep_failure ev st).2
  have hcount := (pageOutStep_failure ev st).1
  refine ⟨?_, ?_, ?_⟩
  · intro hne
    rw [pageOutLoop]
    simp only [if_neg hgoal]
    have : (pageOutStep ev st).2 ≠ true := by
      intro hx; exact hne (hflag.mp hx)
    simp only [ge_iff_le]
    rw [if_neg]
    intro hx
    exact this hx.1
  · intro heq hge
    rw [pageOutLoop]
    simp only [if_neg hgoal]
    rw [if_pos]
    refine ⟨hflag.mpr heq, ?_⟩
    simp only [ge_iff_le, hcount, heq, if_pos]
    simpa using hge
  · intro heq hlt
    rw [pageOutLoop]
    simp only [if_neg hgoal]
    rw [if_neg]
    intro hx
    rw [hcount, heq] at hx
    simp at hx
    omega

/-- C8 witness — the amended accounting applied at concrete states: a
success after seven failures keeps the counter at seven, a transient
failure keeps it too, and an eighth hard failure moves it to eight and
(goal unmet, counter below ten) the pass continues. -/
theorem C8_page_out_failure_accounting_witness :
    (pageOutStep ⟨PageOutStatus.success, 1⟩ ⟨0, 7, 0, 0, 0⟩).1.failureCount = 7 ∧
    (pageOutStep ⟨PageOutStatus.resourceInUse, 0⟩ ⟨0, 7, 0, 0, 0⟩).1.failureCount = 7 ∧
    pageOutLoop 100 0 50 [Option.some ⟨PageOutStatus.otherFailure, 0⟩] ⟨0, 7, 0, 0, 0⟩ =
      pageOutLoop 100 0 50 [] (pageOutStep ⟨PageOutStatus.otherFailure, 0⟩ ⟨0, 7, 0, 0, 0⟩).1 := by
  refine ⟨?_, ?_, ?_⟩
  · rw [C8_page_out_failure_accounting.1 ⟨PageOutStatus.success, 1⟩ ⟨0, 7, 0, 0, 0⟩]
    decide
  · rw [C8_page_out_failure_accounting.1 ⟨PageOutStatus.resourceInUse, 0⟩ ⟨0, 7, 0, 0, 0⟩]
    decide
  · have h := (C8_page_out_failure_accounting.2.2 100 0 50 ⟨PageOutStatus.otherFailure, 0⟩
      [] ⟨0, 7, 0, 0, 0⟩ (by decide)).2.2 rfl (by decide)
    simpa using h


/-- The segment walk yields an in-range index. -/
theorem findSegmentIdx_lt_length (segs : List PhysicalMemorySegment) (pn i : Nat)
    (h : findSegmentIdx segs pn = Option.some i) : i < segs.length := by
  rw [findSegmentIdx, List.findIdx?_eq_some_iff_findIdx_eq] at h
  exact h.1

/-- Replacing a segment with one of the same start page and record count
leaves the segment walk unchanged (for every page number). -/
theorem findSegmentIdx_set (segs : List PhysicalMemorySegment) (i : Nat)
    (s' : PhysicalMemorySegment) (pn : Nat)
    (hstart : s'.startPage = (segs.getD i default).startPage)
    (hlen : s'.recs.length = (segs.getD i default).recs.length) :
    findSegmentIdx (segs.set i s') pn = findSegmentIdx segs pn := by
  induction segs generalizing i with
  | nil => simp
  | cons s t ih =>
    cases i with
    | zero =>
      simp only [List.getD_cons_zero] at hstart hlen
      have hend : s'.endPage = s.endPage := by
        simp [PhysicalMemorySegment.endPage, hstart, hlen]
      simp only [List.set_cons_zero, findSegmentIdx, List.findIdx?_cons, hstart, hend]
    | succ j =>
      simp only [List.getD_cons_succ] at hstart hlen
      simp only [List.set_cons_succ, findSegmentIdx, List.findIdx?_cons,
        List.findIdx?_succ]
      have := ih j hstart hlen
      rw [findSegmentIdx] at this
      rw [this, findSegmentIdx]

/-- In-range list update read back at the same index. -/
theorem getD_set_self {α : Type} (l : List α) (i : Nat) (a d : α) (h : i < l.length) :
    (l.set i a).getD i d = a := by
  induction l generalizing i with
  | nil => simp at h
  | cons x t ih =>
    cases i with
    | zero => simp
    | succ j =>
      simp only [List.set_cons_succ, List.getD_cons_succ]
      exact ih j (by simpa using h)


/-- Reduction of the page-cache read when the segment walk succeeds. -/
theorem getPageCacheEntry_found (db : PhysDb) (pn i : Nat)
    (hfind : findSegmentIdx db.segments pn = Option.some i) :
    mmpGetPageCacheEntryForPhysicalAddress db pn =
      (if ((db.segments.getD i default).recs.getD
            (pn - (db.segments.getD i default).startPage) 0) % 2 = 1 then
        clearBit0 ((db.segments.getD i default).recs.getD
            (pn - (db.segments.getD i default).startPage) 0)
      else 0) := by
  unfold mmpGetPageCacheEntryForPhysicalAddress
  rw [hfind]

/-- Reduction of the page-cache attach when the segment walk succeeds. -/
theorem setPageCacheEntry_found (db : PhysDb) (pn e i : Nat)
    (hfind : findSegmentIdx db.segments pn = Option.some i) :
    mmSetPageCacheEntryForPhysicalAddress db pn e =
      dbWithSegments db (db.segments.set i
        (segSetRec (db.segments.getD i default)
          (pn - (db.segments.getD i default).startPage) (setBit0 e))) := by
  unfold mmSetPageCacheEntryForPhysicalAddress dbWithSegments segSetRec
  rw [hfind]

/-- C10 — the page-cache association is an inverse pair: attaching a
page-cache entry with clear low bit to a non-paged frame and reading it
back returns exactly the entry (the internal tag bit is invisible), while
reading a pageable frame or a non-paged frame with no attached entry
(record word exactly the non-paged flag) returns the null pointer. -/
theorem C10_page_cache_entry_roundtrip (db : PhysDb) (pn e i : Nat)
    (hfind : findSegmentIdx db.segments pn = Option.some i)
    (hoff : pn - (db.segments.getD i default).startPage <
            (db.segments.getD i default).recs.length) :
    (((db.segments.getD i default).recs.getD
        (pn - (db.segments.getD i default).startPage) 0) % 2 = 1 →
     e % 2 = 0 →
     mmpGetPageCacheEntryForPhysicalAddress
       (mmSetPageCacheEntryForPhysicalAddress db pn e) pn = e) ∧
    (recPageable ((db.segments.getD i default).recs.getD
        (pn - (db.segments.getD i default).startPage) 0) = true →
     mmpGetPageCacheEntryForPhysicalAddress db pn = 0) ∧
    (((db.segments.getD i default).recs.getD
        (pn - (db.segments.getD i default).startPage) 0) =
          physicalPageFlagNonPaged →
     mmpGetPageCacheEntryForPhysicalAddress db pn = 0) := by
  refine ⟨?_, ?_, ?_⟩
  · intro _hw he
    rw [setPageCacheEntry_found db pn e i hfind]
    unfold dbWithSegments
    have hfind2 : findSegmentIdx
        (db.segments.set i
          (segSetRec (db.segments.getD i default)
            (pn - (db.segments.getD i default).startPage) (setBit0 e))) pn =
        Option.some i :=
      (findSegmentIdx_set db.segments i
        (segSetRec (db.segments.getD i default)
          (pn - (db.segments.getD i default).startPage) (setBit0 e)) pn
        rfl (by simp [segSetRec])).trans hfind
    rw [getPageCacheEntry_found _ pn i hfind2]
    simp only []
    rw [getD_set_self _ _ _ _ (findSegmentIdx_lt_length _ _ _ hfind)]
    unfold segSetRec
    simp only []
    rw [getD_set_self _ _ _ _ hoff]
    have hset : setBit0 e = e + 1 := by
      unfold setBit0
      rw [if_neg (by omega)]
    rw [hset, if_pos (by omega)]
    unfold clearBit0
    omega
  · intro hw
    simp only [recPageable, Bool.and_eq_true, decide_eq_true_eq] at hw
    rw [getPageCacheEntry_found db pn i hfind, if_neg (by omega)]
  · intro hw
    rw [getPageCacheEntry_found db pn i hfind, hw]
    unfold physicalPageFlagNonPaged clearBit0
    norm_num

/-- C10 witness — the inverse pair on the concrete database `exCacheDb`:
attaching entry 8 to non-paged frame 0 and reading it back yields 8;
reading pageable frame 1 or bare non-paged frame 0 yields null. -/
theorem C10_page_cache_entry_roundtrip_witness :
    mmpGetPageCacheEntryForPhysicalAddress
      (mmSetPageCacheEntryForPhysicalAddress exCacheDb 0 8) 0 = 8 ∧
    mmpGetPageCacheEntryForPhysicalAddress exCacheDb 1 = 0 ∧
    mmpGetPageCacheEntryForPhysicalAddress exCacheDb 0 = 0 := by
  refine ⟨?_, ?_, ?_⟩
  · exact (C10_page_cache_entry_roundtrip exCacheDb 0 8 0 (by decide) (by decide)).1
      (by decide) (by decide)
  · exact (C10_page_cache_entry_roundtrip exCacheDb 1 0 0 (by decide) (by decide)).2.1
      (by decide)
  · exact (C10_page_cache_entry_roundtrip exCacheDb 0 0 0 (by decide) (by decide)).2.2
      (by decide)


/-- One unlock iteration skips non-paged records. -/
theorem unlockStep_odd (s : (Nat → PagingEntry) × Nat) (w : Nat) (h : w % 2 = 1) :
    unlockStep s w = s := by
  simp [unlockStep, h]

/-- Overwriting the same heap slot twice keeps only the second write. -/
theorem updEntry_updEntry (e : Nat → PagingEntry) (w : Nat) (a b : PagingEntry) :
    updEntry (updEntry e w a) w b = updEntry e w b := by
  funext x
  by_cases hx : x = w <;> simp [updEntry, hx]

/-- Writing a slot's own value back is the identity. -/
theorem updEntry_self_eta (e : Nat → PagingEntry) (w : Nat) :
    updEntry e w (e w) = e := by
  funext x
  by_cases hx : x = w <;> simp [updEntry, hx]

/-- One unlock iteration undoes one lock iteration on the same record. -/
theorem unlockStep_undo (e : Nat → PagingEntry) (np : Nat) (w : Nat) (hw : w % 2 = 0) :
    unlockStep (updEntry e w { e w with lockCount := (e w).lockCount + 1 },
                if (e w).lockCount = 0 then np + 1 else np) w = (e, np) := by
  have h1 : ¬ w % 2 = 1 := by omega
  by_cases hc : (e w).lockCount = 0 <;> simp [unlockStep, updEntry, h1, hc]
  · rw [updEntry_updEntry, ← hc]
    exact updEntry_self_eta e w
  · rw [updEntry_updEntry]
    exact updEntry_self_eta e w

/-- Unlock iterations on distinct records (or skipped non-paged records)
commute. -/
theorem unlockStep_comm (s : (Nat → PagingEntry) × Nat) (v w : Nat)
    (h : v ≠ w ∨ v % 2 = 1 ∨ w % 2 = 1) :
    unlockStep (unlockStep s w) v = unlockStep (unlockStep s v) w := by
  obtain ⟨e, np⟩ := s
  by_cases hv : v % 2 = 1
  · rw [unlockStep_odd _ v hv, unlockStep_odd _ v hv]
  · by_cases hw : w % 2 = 1
    · rw [unlockStep_odd _ w hw, unlockStep_odd _ w hw]
    · have hvw : v ≠ w := by tauto
      have hwv : ¬ (w = v) := fun hx => hvw hx.symm
      unfold unlockStep updEntry
      simp only [if_neg hw, if_neg hv, if_neg hvw, if_neg hwv, Prod.mk.injEq]
      constructor
      · funext x
        by_cases hxv : x = v <;> by_cases hxw : x = w <;> simp_all
      · split_ifs <;> omega

/-- An unlock iteration on a record not occurring in the rest of the run
commutes past the whole run. -/
theorem unlockRun_step_comm (l : List Nat) :
    ∀ (s : (Nat → PagingEntry) × Nat) (w : Nat), w ∉ l →
    unlockRun l (unlockStep s w) = unlockStep (unlockRun l s) w := by
  induction l with
  | nil => intro s w _; rfl
  | cons v t ih =>
    intro s w hw
    have hvw : v ≠ w := by
      intro hx; exact hw (hx ▸ List.mem_cons_self v t)
    have hwt : w ∉ t := fun hx => hw (List.mem_cons_of_mem v hx)
    show unlockRun t (unlockStep (unlockStep s w) v) = _
    rw [unlockStep_comm s v w (Or.inl hvw), ih (unlockStep s v) w hwt]
    rfl



/-- Unfolding of the unlock loop on a cons cell. -/
theorem unlockRun_cons (w : Nat) (l : List Nat) (s : (Nat → PagingEntry) × Nat) :
    unlockRun (w :: l) s = unlockRun l (unlockStep s w) := rfl

/-- Unfolding of the lock loop over a non-paged record. -/
theorem lockRun_cons_odd (e : Nat → PagingEntry) (np w : Nat) (t : List Nat)
    (hw : w % 2 = 1) :
    lockRun e np (w :: t) =
      ((lockRun e np t).1, (lockRun e np t).2.1, (lockRun e np t).2.2.1,
       (lockRun e np t).2.2.2 + 1) := by
  simp [lockRun, hw]

/-- Unfolding of the lock loop at a capped pageable record. -/
theorem lockRun_cons_cap (e : Nat → PagingEntry) (np w : Nat) (t : List Nat)
    (hw : w % 2 = 0) (hc : (e w).lockCount = maxPhysicalPageLockCount) :
    lockRun e np (w :: t) = (KStatus.resourceInUse, e, np, 0) := by
  simp [lockRun, show ¬ w % 2 = 1 by omega, hc]

/-- Unfolding of the lock loop at a lockable pageable record. -/
theorem lockRun_cons_ok (e : Nat → PagingEntry) (np w : Nat) (t : List Nat)
    (hw : w % 2 = 0) (hc : ¬ (e w).lockCount = maxPhysicalPageLockCount) :
    lockRun e np (w :: t) =
      ((lockRun (updEntry e w { e w with lockCount := (e w).lockCount + 1 })
          (if (e w).lockCount = 0 then np + 1 else np) t).1,
       (lockRun (updEntry e w { e w with lockCount := (e w).lockCount + 1 })
          (if (e w).lockCount = 0 then np + 1 else np) t).2.1,
       (lockRun (updEntry e w { e w with lockCount := (e w).lockCount + 1 })
          (if (e w).lockCount = 0 then np + 1 else np) t).2.2.1,
       (lockRun (updEntry e w { e w with lockCount := (e w).lockCount + 1 })
          (if (e w).lockCount = 0 then np + 1 else np) t).2.2.2 + 1) := by
  simp [lockRun, show ¬ w % 2 = 1 by omega, hc]

/-- The lock loop's processed-page report never exceeds the run length. -/
theorem lockRun_processed_le (run : List Nat) :
    ∀ e np, (lockRun e np run).2.2.2 ≤ run.length := by
  induction run with
  | nil => intro e np; simp [lockRun]
  | cons w t ih =>
    intro e np
    by_cases hw : w % 2 = 1
    · rw [lockRun_cons_odd e np w t hw]
      simpa using ih e np
    · by_cases hc : (e w).lockCount = maxPhysicalPageLockCount
      · rw [lockRun_cons_cap e np w t (by omega) hc]
        simp
      · rw [lockRun_cons_ok e np w t (by omega) hc]
        simpa using ih _ _

/-- A pageable record of the run does not repeat in its tail (per-frame
descriptors): from the no-duplicate hypothesis on the run's pageable
records. -/
theorem head_pageable_not_mem_tail (w : Nat) (t : List Nat) (hw0 : w ≠ 0)
    (hw : w % 2 = 0) (hno : ((w :: t).filter recPageable).Nodup) : w ∉ t := by
  have hpw : recPageable w = true := by
    simp [recPageable, hw0, hw]
  rw [List.filter_cons_of_pos hpw] at hno
  intro hmem
  exact (List.nodup_cons.mp hno).1 (List.mem_filter.mpr ⟨hmem, hpw⟩)

/-- Rolling the unlock loop over the processed front of a lock loop
restores the paging-entry heap and the non-paged counter exactly —
whether the lock loop succeeded or stopped at a capped entry (the
rollback path of `MmpLockPhysicalPages`). -/
theorem lockRun_rollback (run : List Nat) :
    ∀ (e : Nat → PagingEntry) (np : Nat),
    (∀ w ∈ run, w ≠ 0) → ((run.filter recPageable).Nodup) →
    unlockRun (run.take (lockRun e np run).2.2.2)
      ((lockRun e np run).2.1, (lockRun e np run).2.2.1) = (e, np) := by
  induction run with
  | nil =>
    intro e np _ _
    rfl
  | cons w t ih =>
    intro e np hz hno
    have hw0 : w ≠ 0 := hz w (List.mem_cons_self w t)
    have hzt : ∀ x ∈ t, x ≠ 0 := fun x hx => hz x (List.mem_cons_of_mem w hx)
    by_cases hw : w % 2 = 1
    · have hft : (t.filter recPageable).Nodup := by
        rwa [List.filter_cons_of_neg (by simp [recPageable, hw])] at hno
      rw [lockRun_cons_odd e np w t hw]
      simp only [List.take_succ_cons, unlockRun_cons]
      rw [unlockStep_odd _ w hw]
      exact ih e np hzt hft
    · have hweven : w % 2 = 0 := by omega
      by_cases hc : (e w).lockCount = maxPhysicalPageLockCount
      · rw [lockRun_cons_cap e np w t hweven hc]
        rfl
      · have hft : (t.filter recPageable).Nodup := by
          have hpw : recPageable w = true := by simp [recPageable, hw0, hweven]
          rw [List.filter_cons_of_pos hpw] at hno
          exact (List.nodup_cons.mp hno).2
        have hnotint : w ∉ t := head_pageable_not_mem_tail w t hw0 hweven hno
        rw [lockRun_cons_ok e np w t hweven hc]
        simp only [List.take_succ_cons, unlockRun_cons]
        have hnotin :
            w ∉ t.take (lockRun (updEntry e w { e w with lockCount := (e w).lockCount + 1 })
              (if (e w).lockCount = 0 then np + 1 else np) t).2.2.2 :=
          fun hx => hnotint (List.take_subset _ _ hx)
        rw [unlockRun_step_comm _ _ _ hnotin, ih _ _ hzt hft]
        exact unlockStep_undo e np w hweven


/-- Status characterization of the lock loop: with per-frame (distinct)
paging descriptors the loop fails with the resource-in-use status exactly
when some pageable record of the run sits at the lock cap; the status is
otherwise success, and a successful loop processed the whole run. -/
theorem lockRun_status (run : List Nat) :
    ∀ (e : Nat → PagingEntry) (np : Nat),
    (∀ w ∈ run, w ≠ 0) → ((run.filter recPageable).Nodup) →
    (((lockRun e np run).1 = KStatus.resourceInUse ↔
        ∃ w ∈ run, w % 2 = 0 ∧ (e w).lockCount = maxPhysicalPageLockCount) ∧
     ((lockRun e np run).1 = KStatus.success ∨
      (lockRun e np run).1 = KStatus.resourceInUse) ∧
     ((lockRun e np run).1 = KStatus.success →
      (lockRun e np run).2.2.2 = run.length)) := by
  induction run with
  | nil =>
    intro e np _ _
    refine ⟨by simp [lockRun], Or.inl rfl, fun _ => rfl⟩
  | cons w t ih =>
    intro e np hz hno
    have hw0 : w ≠ 0 := hz w (List.mem_cons_self w t)
    have hzt : ∀ x ∈ t, x ≠ 0 := fun x hx => hz x (List.mem_cons_of_mem w hx)
    by_cases hw : w % 2 = 1
    · have hft : (t.filter recPageable).Nodup := by
        rwa [List.filter_cons_of_neg (by simp [recPageable, hw])] at hno
      have iht := ih e np hzt hft
      rw [lockRun_cons_odd e np w t hw]
      refine ⟨?_, iht.2.1, ?_⟩
      · simp only []
        rw [iht.1]
        constructor
        · intro hex
          obtain ⟨v, hv, hve, hvc⟩ := hex
          exact ⟨v, List.mem_cons_of_mem w hv, hve, hvc⟩
        · intro hex
          obtain ⟨v, hv, hve, hvc⟩ := hex
          rcases List.mem_cons.mp hv with hvw | hvt
          · subst hvw
            omega
          · exact ⟨v, hvt, hve, hvc⟩
      · intro hs
        simp only [List.length_cons]
        rw [iht.2.2 hs]
    · have hweven : w % 2 = 0 := by omega
      by_cases hc : (e w).lockCount = maxPhysicalPageLockCount
      · rw [lockRun_cons_cap e np w t hweven hc]
        refine ⟨?_, Or.inr rfl, ?_⟩
        · simp only []
          constructor
          · intro _
            exact ⟨w, List.mem_cons_self w t, hweven, hc⟩
          · intro _
            trivial
        · intro hs
          cases hs
      · have hpw : recPageable w = true := by simp [recPageable, hw0, hweven]
        have hft : (t.filter recPageable).Nodup := by
          rw [List.filter_cons_of_pos hpw] at hno
          exact (List.nodup_cons.mp hno).2
        have hnotint : w ∉ t := head_pageable_not_mem_tail w t hw0 hweven hno
        have iht := ih (updEntry e w { e w with lockCount := (e w).lockCount + 1 })
          (if (e w).lockCount = 0 then np + 1 else np) hzt hft
        rw [lockRun_cons_ok e np w t hweven hc]
        have htrans : (∃ v ∈ t, v % 2 = 0 ∧
            ((updEntry e w { e w with lockCount := (e w).lockCount + 1 }) v).lockCount =
              maxPhysicalPageLockCount) ↔
            (∃ v ∈ t, v % 2 = 0 ∧ (e v).lockCount = maxPhysicalPageLockCount) := by
          constructor
          · intro hex
            obtain ⟨v, hv, hve, hvc⟩ := hex
            have hvw : v ≠ w := fun hvw => hnotint (hvw ▸ hv)
            rw [updEntry] at hvc
            rw [if_neg hvw] at hvc
            exact ⟨v, hv, hve, hvc⟩
          · intro hex
            obtain ⟨v, hv, hve, hvc⟩ := hex
            have hvw : v ≠ w := fun hvw => hnotint (hvw ▸ hv)
            refine ⟨v, hv, hve, ?_⟩
            rw [updEntry, if_neg hvw]
            exact hvc
        refine ⟨?_, iht.2.1, ?_⟩
        · simp only []
          rw [iht.1, htrans]
          constructor
          · intro hex
            obtain ⟨v, hv, hve, hvc⟩ := hex
            exact ⟨v, List.mem_cons_of_mem w hv, hve, hvc⟩
          · intro hex
            obtain ⟨v, hv, hve, hvc⟩ := hex
            rcases List.mem_cons.mp hv with hvw | hvt
            · subst hvw
              exact absurd hvc hc
            · exact ⟨v, hvt, hve, hvc⟩
        · intro hs
          simp only [List.length_cons]
          rw [iht.2.2 hs]



/-- Reduction of `MmpUnlockPhysicalPages` when the segment walk succeeds. -/
theorem mmpUnlockPhysicalPages_found (db : PhysDb) (pn count i : Nat)
    (hfind : findSegmentIdx db.segments pn = Option.some i) :
    mmpUnlockPhysicalPages db pn count =
      dbWithLocks db
        (unlockRun (segRun db i pn count) (db.entries, db.nonPagedPages)).1
        (unlockRun (segRun db i pn count) (db.entries, db.nonPagedPages)).2 := by
  unfold mmpUnlockPhysicalPages segRun dbWithLocks
  rw [hfind]

/-- Reduction of `MmpLockPhysicalPages` when the segment walk succeeds. -/
theorem mmpLockPhysicalPages_found (db : PhysDb) (pn count i : Nat)
    (hfind : findSegmentIdx db.segments pn = Option.some i) :
    mmpLockPhysicalPages db pn count =
      (if (lockRun db.entries db.nonPagedPages (segRun db i pn count)).1 =
          KStatus.success then
        (KStatus.success,
         dbWithLocks db
           (lockRun db.entries db.nonPagedPages (segRun db i pn count)).2.1
           (lockRun db.entries db.nonPagedPages (segRun db i pn count)).2.2.1)
      else if (lockRun db.entries db.nonPagedPages (segRun db i pn count)).2.2.2 ≠ 0 then
        ((lockRun db.entries db.nonPagedPages (segRun db i pn count)).1,
         mmpUnlockPhysicalPages
           (dbWithLocks db
             (lockRun db.entries db.nonPagedPages (segRun db i pn count)).2.1
             (lockRun db.entries db.nonPagedPages (segRun db i pn count)).2.2.1)
           pn (lockRun db.entries db.nonPagedPages (segRun db i pn count)).2.2.2)
      else
        ((lockRun db.entries db.nonPagedPages (segRun db i pn count)).1,
         dbWithLocks db
           (lockRun db.entries db.nonPagedPages (segRun db i pn count)).2.1
           (lockRun db.entries db.nonPagedPages (segRun db i pn count)).2.2.1)) := by
  unfold mmpLockPhysicalPages segRun dbWithLocks
  rw [hfind]


/-- Reinstalling a database's own heap and counter is the identity. -/
theorem dbWithLocks_self (db : PhysDb) : dbWithLocks db db.entries db.nonPagedPages = db := rfl

/-- C6 — `lock_pages` fails with the resource-in-use status exactly when
the run contains a pageable frame whose paging-entry lock count is at the
cap (15), and on such a failure every lock-count increment already
performed on earlier frames of the run is rolled back, leaving the whole
database — per-descriptor lock counts and the non-paged counter included —
exactly as before the call. -/
theorem C6_lock_pages_cap_failure (db : PhysDb) (pn count i : Nat)
    (hfind : findSegmentIdx db.segments pn = Option.some i)
    (hz : ∀ w ∈ segRun db i pn count, w ≠ 0)
    (hno : ((segRun db i pn count).filter recPageable).Nodup) :
    ((mmpLockPhysicalPages db pn count).1 = KStatus.resourceInUse ↔
      ∃ w ∈ segRun db i pn count, w % 2 = 0 ∧
        (db.entries w).lockCount = maxPhysicalPageLockCount) ∧
    ((mmpLockPhysicalPages db pn count).1 = KStatus.resourceInUse →
      (mmpLockPhysicalPages db pn count).2 = db) := by
  have hstat := lockRun_status (segRun db i pn count) db.entries db.nonPagedPages hz hno
  have hroll := lockRun_rollback (segRun db i pn count) db.entries db.nonPagedPages hz hno
  rw [mmpLockPhysicalPages_found db pn count i hfind]
  set r := lockRun db.entries db.nonPagedPages (segRun db i pn count) with hr
  by_cases hs : r.1 = KStatus.success
  · rw [if_pos hs]
    constructor
    · constructor
      · intro hx
        simp at hx
      · intro hex
        rw [hstat.1.mpr hex] at hs
        exact absurd hs (by decide)
    · intro hx
      simp at hx
  · have hriu : r.1 = KStatus.resourceInUse := by
      rcases hstat.2.1 with h | h
      · exact absurd h hs
      · exact h
    rw [if_neg hs]
    have hkle : r.2.2.2 ≤ count := by
      refine le_trans (lockRun_processed_le (segRun db i pn count)
        db.entries db.nonPagedPages) ?_
      unfold segRun
      exact List.length_take_le count _
    by_cases hk : r.2.2.2 ≠ 0
    · rw [if_pos hk]
      refine ⟨hstat.1, ?_⟩
      intro _
      show mmpUnlockPhysicalPages (dbWithLocks db r.2.1 r.2.2.1) pn r.2.2.2 = db
      rw [mmpUnlockPhysicalPages_found (dbWithLocks db r.2.1 r.2.2.1) pn r.2.2.2 i hfind]
      have e1 : segRun (dbWithLocks db r.2.1 r.2.2.1) i pn r.2.2.2 =
          (segRun db i pn count).take r.2.2.2 := by
        show ((db.segments.getD i default).recs.drop
            (pn - (db.segments.getD i default).startPage)).take r.2.2.2 = _
        unfold segRun
        rw [List.take_take]
        congr 1
        omega
      show dbWithLocks db
          (unlockRun (segRun (dbWithLocks db r.2.1 r.2.2.1) i pn r.2.2.2)
            (r.2.1, r.2.2.1)).1
          (unlockRun (segRun (dbWithLocks db r.2.1 r.2.2.1) i pn r.2.2.2)
            (r.2.1, r.2.2.1)).2 = db
      rw [e1, hroll]
      exact dbWithLocks_self db
    · rw [if_neg hk]
      push_neg at hk
      refine ⟨hstat.1, ?_⟩
      intro _
      have h0 := hroll
      rw [hk, List.take_zero] at h0
      have he : r.2.1 = db.entries := congrArg Prod.fst h0
      have hn : r.2.2.1 = db.nonPagedPages := congrArg Prod.snd h0
      show dbWithLocks db r.2.1 r.2.2.1 = db
      rw [he, hn]
      exact dbWithLocks_self db

/-- C6 witness — locking a two-frame run whose first frame's paging entry
sits at the cap fails with resource-in-use and leaves the database
untouched. -/
theorem C6_lock_pages_cap_failure_witness :
    (mmpLockPhysicalPages exLockDb 0 2).1 = KStatus.resourceInUse ∧
    (mmpLockPhysicalPages exLockDb 0 2).2 = exLockDb := by
  have h := C6_lock_pages_cap_failure exLockDb 0 2 0 (by decide) (by decide) (by decide)
  have hs : (mmpLockPhysicalPages exLockDb 0 2).1 = KStatus.resourceInUse :=
    h.1.mpr ⟨2, by decide, by decide, by decide⟩
  exact ⟨hs, h.2 hs⟩

/-- C7 — on a run of allocated frames whose pageable descriptors are all
below the lock cap, `lock_pages` succeeds and `unlock_pages` of the same
run restores the database exactly: every per-descriptor lock count and the
non-paged counter return to their values from before the pair of calls. -/
theorem C7_lock_unlock_noop (db : PhysDb) (pn count i : Nat)
    (hfind : findSegmentIdx db.segments pn = Option.some i)
    (hz : ∀ w ∈ segRun db i pn count, w ≠ 0)
    (hno : ((segRun db i pn count).filter recPageable).Nodup)
    (hcap : ∀ w ∈ segRun db i pn count, w % 2 = 0 →
      (db.entries w).lockCount < maxPhysicalPageLockCount) :
    (mmpLockPhysicalPages db pn count).1 = KStatus.success ∧
    mmpUnlockPhysicalPages (mmpLockPhysicalPages db pn count).2 pn count = db := by
  have hstat := lockRun_status (segRun db i pn count) db.entries db.nonPagedPages hz hno
  have hroll := lockRun_rollback (segRun db i pn count) db.entries db.nonPagedPages hz hno
  set r := lockRun db.entries db.nonPagedPages (segRun db i pn count) with hr
  have hnotex : ¬ ∃ w ∈ segRun db i pn count, w % 2 = 0 ∧
      (db.entries w).lockCount = maxPhysicalPageLockCount := by
    rintro ⟨w, hw, hwe, hwc⟩
    exact absurd hwc (Nat.ne_of_lt (hcap w hw hwe))
  have hs : r.1 = KStatus.success := by
    rcases hstat.2.1 with h | h
    · exact h
    · exact absurd (hstat.1.mp h) hnotex
  rw [mmpLockPhysicalPages_found db pn count i hfind, if_pos hs]
  refine ⟨rfl, ?_⟩
  show mmpUnlockPhysicalPages (dbWithLocks db r.2.1 r.2.2.1) pn count = db
  rw [mmpUnlockPhysicalPages_found (dbWithLocks db r.2.1 r.2.2.1) pn count i hfind]
  have hlen : r.2.2.2 = (segRun db i pn count).length := hstat.2.2 hs
  have h0 := hroll
  rw [hlen, List.take_length] at h0
  have e1 : segRun (dbWithLocks db r.2.1 r.2.2.1) i pn count =
      segRun db i pn count := rfl
  show dbWithLocks db
      (unlockRun (segRun (dbWithLocks db r.2.1 r.2.2.1) i pn count)
        (r.2.1, r.2.2.1)).1
      (unlockRun (segRun (dbWithLocks db r.2.1 r.2.2.1) i pn count)
        (r.2.1, r.2.2.1)).2 = db
  rw [e1, h0]
  exact dbWithLocks_self db

/-- C7 witness — lock then unlock of a two-frame run (one non-paged frame,
one pageable frame with lock count 3) returns the concrete database to its
original state. -/
theorem C7_lock_unlock_noop_witness :
    (mmpLockPhysicalPages exLockOkDb 0 2).1 = KStatus.success ∧
    mmpUnlockPhysicalPages (mmpLockPhysicalPages exLockOkDb 0 2).2 0 2 = exLockOkDb := by
  exact C7_lock_unlock_noop exLockOkDb 0 2 0 (by decide) (by decide) (by decide)
    (by decide)

/-! ## Unmap pass analysis (for C2) -/

/-- The directory after one pass-1 step: the slot at `dirIndex va` holds the
synced value `syncOne`, all other slots are untouched. -/
lemma unmapPass1Step_directory (kdir : Nat → Pde) (f w : Bool) (va : Nat)
    (s : UnmapPass1State) (j : Nat) :
    (unmapPass1Step kdir f w va s).directory j =
      if j = dirIndex va then syncOne kdir s.directory (dirIndex va)
      else s.directory j := by
  by_cases hc : kernelDirStart ≤ dirIndex va ∧
      (s.directory (dirIndex va)).present = false ∧
      (s.directory (dirIndex va)).entry = 0
  · by_cases hj : j = dirIndex va
    · simp [unmapPass1Step, syncOne, hc, hj]
      by_cases hp : (kdir (dirIndex va)).present = false
      · simp [hp]
      · simp [hp]
        by_cases he : (s.tables (dirIndex va) (tableIndex va)).entry = 0
        · simp [he]
        · simp [he]
    · simp [unmapPass1Step, syncOne, hc, hj]
      by_cases hp : (kdir (dirIndex va)).present = false
      · simp [hp]
        exact fun h => absurd h hj
      · simp [hp]
        by_cases he : (s.tables (dirIndex va) (tableIndex va)).entry = 0
        · simp [he]
          exact fun h => absurd h hj
        · simp [he]
          exact fun h => absurd h hj
  · by_cases hj : j = dirIndex va
    · simp [unmapPass1Step, syncOne, hc, hj]
      by_cases hp : (s.directory (dirIndex va)).present = false
      · simp [hp]
      · simp [hp]
        by_cases he : (s.tables (dirIndex va) (tableIndex va)).entry = 0
        · simp [he]
        · simp [he]
    · simp [unmapPass1Step, syncOne, hc, hj]
      by_cases hp : (s.directory (dirIndex va)).present = false
      · simp [hp]
      · simp [hp]
        by_cases he : (s.tables (dirIndex va) (tableIndex va)).entry = 0
        · simp [he]
        · simp [he]

/-- A pass-1 step leaves every page-table slot other than its own
`(dirIndex va, tableIndex va)` untouched. -/
lemma unmapPass1Step_tables_other (kdir : Nat → Pde) (f w : Bool) (va : Nat)
    (s : UnmapPass1State) (d t : Nat)
    (h : ¬ (d = dirIndex va ∧ t = tableIndex va)) :
    (unmapPass1Step kdir f w va s).tables d t = s.tables d t := by
  by_cases hc : kernelDirStart ≤ dirIndex va ∧
      (s.directory (dirIndex va)).present = false ∧
      (s.directory (dirIndex va)).entry = 0
  · simp [unmapPass1Step, hc]
    by_cases hp : (kdir (dirIndex va)).present = false
    · simp [hp]
    · simp [hp]
      by_cases he : (s.tables (dirIndex va) (tableIndex va)).entry = 0
      · simp [he]
      · simp [he, h]
  · simp [unmapPass1Step, hc]
    by_cases hp : (s.directory (dirIndex va)).present = false
    · simp [hp]
    · simp [hp]
      by_cases he : (s.tables (dirIndex va) (tableIndex va)).entry = 0
      · simp [he]
      · simp [he, h]

/-- The page-table slot a pass-1 step owns: if the post-sync directory entry
is present and the slot is mapped, the slot becomes either the all-zero PTE
or the old PTE with the present bit cleared; otherwise it is untouched. -/
lemma unmapPass1Step_tables_self (kdir : Nat → Pde) (f w : Bool) (va : Nat)
    (s : UnmapPass1State) :
    (unmapPass1Step kdir f w va s).tables (dirIndex va) (tableIndex va) =
      if (syncOne kdir s.directory (dirIndex va)).present = true ∧
          (s.tables (dirIndex va) (tableIndex va)).entry ≠ 0 then
        (if f = false ∧ w = false then Pte.zero
         else { s.tables (dirIndex va) (tableIndex va) with present := false })
      else s.tables (dirIndex va) (tableIndex va) := by
  by_cases hc : kernelDirStart ≤ dirIndex va ∧
      (s.directory (dirIndex va)).present = false ∧
      (s.directory (dirIndex va)).entry = 0
  · simp [unmapPass1Step, syncOne, hc]
    by_cases hp : (kdir (dirIndex va)).present = false
    · simp [hp]
    · simp [hp]
      by_cases he : (s.tables (dirIndex va) (tableIndex va)).entry = 0
      · simp [he]
      · simp [he]
  · simp [unmapPass1Step, syncOne, hc]
    by_cases hp : (s.directory (dirIndex va)).present = false
    · simp [hp]
    · simp [hp]
      by_cases he : (s.tables (dirIndex va) (tableIndex va)).entry = 0
      · simp [he]
      · simp [he]

/-- `MappedCount` after a pass-1 step: it rises by one exactly when the
post-sync directory entry is present and the slot is mapped. -/
lemma unmapPass1Step_mapped (kdir : Nat → Pde) (f w : Bool) (va : Nat)
    (s : UnmapPass1State) :
    (unmapPass1Step kdir f w va s).mappedCount =
      s.mappedCount +
        (if (syncOne kdir s.directory (dirIndex va)).present = true ∧
            (s.tables (dirIndex va) (tableIndex va)).entry ≠ 0 then 1 else 0) := by
  by_cases hc : kernelDirStart ≤ dirIndex va ∧
      (s.directory (dirIndex va)).present = false ∧
      (s.directory (dirIndex va)).entry = 0
  · simp [unmapPass1Step, syncOne, hc]
    by_cases hp : (kdir (dirIndex va)).present = false
    · simp [hp]
    · simp [hp]
      by_cases he : (s.tables (dirIndex va) (tableIndex va)).entry = 0
      · simp [he]
      · simp [he]
  · simp [unmapPass1Step, syncOne, hc]
    by_cases hp : (s.directory (dirIndex va)).present = false
    · simp [hp]
    · simp [hp]
      by_cases he : (s.tables (dirIndex va) (tableIndex va)).entry = 0
      · simp [he]
      · simp [he]

/-- `syncOne` only looks at the slot it syncs. -/
lemma syncOne_congr (kdir : Nat → Pde) (d d' : Nat → Pde) (di : Nat)
    (h : d di = d' di) : syncOne kdir d di = syncOne kdir d' di := by
  unfold syncOne
  rw [h]

/-- After the sync has been applied once to a slot, applying it again
changes nothing: the synced slot is a fixpoint of `syncOne`. -/
lemma syncOne_fix (kdir : Nat → Pde) (d : Nat → Pde) (di : Nat)
    (d' : Nat → Pde) (h : d' di = syncOne kdir d di) :
    syncOne kdir d' di = d' di := by
  unfold syncOne at h ⊢
  by_cases hc : kernelDirStart ≤ di ∧ (d di).present = false ∧ (d di).entry = 0
  · rw [if_pos hc] at h
    by_cases hc' : kernelDirStart ≤ di ∧ (d' di).present = false ∧ (d' di).entry = 0
    · rw [if_pos hc', h]
    · rw [if_neg hc']
  · rw [if_neg hc] at h
    by_cases hc' : kernelDirStart ≤ di ∧ (d' di).present = false ∧ (d' di).entry = 0
    · rw [if_pos hc']
      rw [h] at hc'
      exact absurd hc' hc
    · rw [if_neg hc']

/-- Once a directory slot is a fixpoint of the sync, the remaining pass-1
steps never change it. -/
lemma unmapPass1_directory_stable (kdir : Nat → Pde) (f w : Bool) :
    ∀ (n va : Nat) (s : UnmapPass1State) (di : Nat),
    syncOne kdir s.directory di = s.directory di →
    (unmapPass1 kdir f w va n s).directory di = s.directory di := by
  intro n
  induction n with
  | zero => intro va s di _; rfl
  | succ m ih =>
    intro va s di hfix
    rw [unmapPass1]
    have hstep := unmapPass1Step_directory kdir f w va s di
    have hs1 : (unmapPass1Step kdir f w va s).directory di =
        syncOne kdir s.directory di := by
      by_cases hj : di = dirIndex va
      · rw [if_pos hj] at hstep
        rw [← hj] at hstep
        exact hstep
      · rw [if_neg hj] at hstep
        rw [hstep, hfix]
    have hfix' : syncOne kdir (unmapPass1Step kdir f w va s).directory di =
        (unmapPass1Step kdir f w va s).directory di := by
      have := syncOne_fix kdir s.directory di
        (unmapPass1Step kdir f w va s).directory hs1
      exact this
    rw [ih (va + pageSize) (unmapPass1Step kdir f w va s) di hfix', hs1, hfix]

/-- Pass 1 leaves every page-table slot outside its page range untouched. -/
lemma unmapPass1_tables_untouched (kdir : Nat → Pde) (f w : Bool) :
    ∀ (n va : Nat) (s : UnmapPass1State) (d t : Nat),
    (∀ k, k < n → ¬ (d = dirIndex (va + pageSize * k) ∧
        t = tableIndex (va + pageSize * k))) →
    (unmapPass1 kdir f w va n s).tables d t = s.tables d t := by
  intro n
  induction n with
  | zero => intro va s d t _; rfl
  | succ m ih =>
    intro va s d t h
    rw [unmapPass1]
    rw [ih (va + pageSize) (unmapPass1Step kdir f w va s) d t ?_]
    · apply unmapPass1Step_tables_other
      have := h 0 (Nat.succ_pos m)
      simpa using this
    · intro k hk
      have := h (k + 1) (Nat.succ_lt_succ hk)
      have harith : va + pageSize + pageSize * k = va + pageSize * (k + 1) := by ring
      rw [harith]
      exact this

/-- Pass 1 preserves the invariant that an empty slot is never marked
present. -/
lemma unmapPass1_wf (kdir : Nat → Pde) (f w : Bool) :
    ∀ (n va : Nat) (s : UnmapPass1State),
    (∀ d t, (s.tables d t).entry = 0 → (s.tables d t).present = false) →
    ∀ d t, ((unmapPass1 kdir f w va n s).tables d t).entry = 0 →
      ((unmapPass1 kdir f w va n s).tables d t).present = false := by
  intro n
  induction n with
  | zero => intro va s h d t; exact h d t
  | succ m ih =>
    intro va s h
    rw [unmapPass1]
    apply ih
    intro d t
    by_cases hd : d = dirIndex va ∧ t = tableIndex va
    · rw [hd.1, hd.2, unmapPass1Step_tables_self]
      by_cases hcond : (syncOne kdir s.directory (dirIndex va)).present = true ∧
          (s.tables (dirIndex va) (tableIndex va)).entry ≠ 0
      · rw [if_pos hcond]
        by_cases hfw : f = false ∧ w = false
        · rw [if_pos hfw]
          intro _
          rfl
        · rw [if_neg hfw]
          intro _
          rfl
      · rw [if_neg hcond]
        exact h (dirIndex va) (tableIndex va)
    · rw [unmapPass1Step_tables_other kdir f w va s d t hd]
      exact h d t

/-- Two virtual addresses with the same directory and table index lie in the
same page. -/
lemma pagePos_inj (a b : Nat) (h1 : dirIndex a = dirIndex b)
    (h2 : tableIndex a = tableIndex b) : a / pageSize = b / pageSize := by
  unfold dirIndex at h1
  unfold tableIndex at h2
  unfold pageSize at h2 ⊢
  norm_num at h1
  omega

/-- One pass-1 step preserves the invariant that an empty slot is never
marked present. -/
lemma unmapPass1Step_wf (kdir : Nat → Pde) (f w : Bool) (va : Nat)
    (s : UnmapPass1State)
    (h : ∀ d t, (s.tables d t).entry = 0 → (s.tables d t).present = false) :
    ∀ d t, ((unmapPass1Step kdir f w va s).tables d t).entry = 0 →
      ((unmapPass1Step kdir f w va s).tables d t).present = false := by
  intro d t
  by_cases hd : d = dirIndex va ∧ t = tableIndex va
  · rw [hd.1, hd.2, unmapPass1Step_tables_self]
    by_cases hcond : (syncOne kdir s.directory (dirIndex va)).present = true ∧
        (s.tables (dirIndex va) (tableIndex va)).entry ≠ 0
    · rw [if_pos hcond]
      by_cases hfw : f = false ∧ w = false
      · rw [if_pos hfw]
        intro _
        rfl
      · rw [if_neg hfw]
        intro _
        rfl
    · rw [if_neg hcond]
      exact h (dirIndex va) (tableIndex va)
  · rw [unmapPass1Step_tables_other kdir f w va s d t hd]
    exact h d t

/-- Pass 1 of the unmap clears the present bit of every page in the range
whose final directory entry is present, provided the start address is
page-aligned and no present PTE sits in an empty slot. -/
lemma unmapPass1_clears (kdir : Nat → Pde) (f w : Bool) :
    ∀ (n va : Nat) (s : UnmapPass1State),
    va % pageSize = 0 →
    (∀ d t, (s.tables d t).entry = 0 → (s.tables d t).present = false) →
    ∀ k, k < n →
    ((unmapPass1 kdir f w va n s).directory
        (dirIndex (va + pageSize * k))).present = true →
    ((unmapPass1 kdir f w va n s).tables (dirIndex (va + pageSize * k))
        (tableIndex (va + pageSize * k))).present = false := by
  intro n
  induction n with
  | zero =>
    intro va s _ _ k hk
    exact absurd hk (Nat.not_lt_zero k)
  | succ m ih =>
    intro va s halign hwf k hk
    rw [unmapPass1]
    cases k with
    | succ k' =>
      have harith : va + pageSize * (k' + 1) = va + pageSize + pageSize * k' := by
        ring
      rw [harith]
      have halign' : (va + pageSize) % pageSize = 0 := by
        unfold pageSize at halign ⊢
        omega
      exact ih (va + pageSize) (unmapPass1Step kdir f w va s) halign'
        (unmapPass1Step_wf kdir f w va s hwf) k' (Nat.lt_of_succ_lt_succ hk)
    | zero =>
      simp only [Nat.mul_zero, Nat.add_zero]
      have hs1dir : (unmapPass1Step kdir f w va s).directory (dirIndex va) =
          syncOne kdir s.directory (dirIndex va) := by
        have := unmapPass1Step_directory kdir f w va s (dirIndex va)
        rw [if_pos rfl] at this
        exact this
      have hfix' : syncOne kdir (unmapPass1Step kdir f w va s).directory
          (dirIndex va) = (unmapPass1Step kdir f w va s).directory (dirIndex va) :=
        syncOne_fix kdir s.directory (dirIndex va)
          (unmapPass1Step kdir f w va s).directory hs1dir
      have hstable := unmapPass1_directory_stable kdir f w m (va + pageSize)
        (unmapPass1Step kdir f w va s) (dirIndex va) hfix'
      intro hpres
      rw [hstable] at hpres
      have huntouched : ∀ j, j < m →
          ¬ (dirIndex va = dirIndex (va + pageSize + pageSize * j) ∧
             tableIndex va = tableIndex (va + pageSize + pageSize * j)) := by
        rintro j _ ⟨h1, h2⟩
        have hsame := pagePos_inj va (va + pageSize + pageSize * j) h1 h2
        unfold pageSize at hsame halign
        omega
      have htail := unmapPass1_tables_untouched kdir f w m (va + pageSize)
        (unmapPass1Step kdir f w va s) (dirIndex va) (tableIndex va) huntouched
      rw [htail]
      have hself := unmapPass1Step_tables_self kdir f w va s
      by_cases hcond : (syncOne kdir s.directory (dirIndex va)).present = true ∧
          (s.tables (dirIndex va) (tableIndex va)).entry ≠ 0
      · rw [if_pos hcond] at hself
        rw [hself]
        by_cases hfw : f = false ∧ w = false
        · rw [if_pos hfw]
          rfl
        · rw [if_neg hfw]
      · rw [if_neg hcond] at hself
        rw [hself]
        have hpr : (syncOne kdir s.directory (dirIndex va)).present = true := by
          rw [← hs1dir]
          exact hpres
        have hent : ¬ (s.tables (dirIndex va) (tableIndex va)).entry ≠ 0 :=
          fun he => hcond ⟨hpr, he⟩
        exact hwf (dirIndex va) (tableIndex va) (not_not.mp hent)

/-- For a range entirely below `KERNEL_VA_START`, pass 1 never syncs the
directory, and `MappedCount` counts exactly the pages of the range whose
directory entry is present and whose PTE slot is non-empty, all evaluated
on the initial state. -/
lemma unmapPass1_mapped_user (kdir : Nat → Pde) (f w : Bool) :
    ∀ (n va : Nat) (s : UnmapPass1State),
    va % pageSize = 0 →
    va + n * pageSize ≤ kernelVaStart →
    (unmapPass1 kdir f w va n s).directory = s.directory ∧
    (unmapPass1 kdir f w va n s).mappedCount =
      s.mappedCount + ((List.range n).countP (fun k =>
        decide ((s.directory (dirIndex (va + pageSize * k))).present = true ∧
          (s.tables (dirIndex (va + pageSize * k))
            (tableIndex (va + pageSize * k))).entry ≠ 0))) := by
  intro n
  induction n with
  | zero =>
    intro va s _ _
    exact ⟨rfl, by simp [unmapPass1]⟩
  | succ m ih =>
    intro va s halign hbound
    have hnk : ¬ kernelDirStart ≤ dirIndex va := by
      unfold kernelDirStart
      unfold kernelVaStart at hbound ⊢
      unfold dirIndex
      unfold pageSize at hbound
      norm_num at hbound ⊢
      omega
    have hdir1 : (unmapPass1Step kdir f w va s).directory = s.directory := by
      funext j
      rw [unmapPass1Step_directory]
      by_cases hj : j = dirIndex va
      · rw [if_pos hj, hj]
        unfold syncOne
        rw [if_neg ?_]
        rintro ⟨hK, -⟩
        exact hnk hK
      · rw [if_neg hj]
    have hsync : syncOne kdir s.directory (dirIndex va) = s.directory (dirIndex va) := by
      unfold syncOne
      rw [if_neg ?_]
      rintro ⟨hK, -⟩
      exact hnk hK
    have hmap1 : (unmapPass1Step kdir f w va s).mappedCount =
        s.mappedCount +
          (if decide ((s.directory (dirIndex va)).present = true ∧
              (s.tables (dirIndex va) (tableIndex va)).entry ≠ 0) = true
           then 1 else 0) := by
      rw [unmapPass1Step_mapped, hsync]
      congr 1
      simp
    have halign' : (va + pageSize) % pageSize = 0 := by
      unfold pageSize at halign ⊢
      omega
    have hbound' : (va + pageSize) + m * pageSize ≤ kernelVaStart := by
      have : va + pageSize + m * pageSize = va + (m + 1) * pageSize := by ring
      rw [this]
      exact hbound
    obtain ⟨ihdir, ihmap⟩ := ih (va + pageSize) (unmapPass1Step kdir f w va s)
      halign' hbound'
    have htabeq : ∀ k, k < m →
        (unmapPass1Step kdir f w va s).tables
            (dirIndex (va + pageSize + pageSize * k))
            (tableIndex (va + pageSize + pageSize * k)) =
          s.tables (dirIndex (va + pageSize + pageSize * k))
            (tableIndex (va + pageSize + pageSize * k)) := by
      intro k _
      apply unmapPass1Step_tables_other
      rintro ⟨h1, h2⟩
      have hsame := pagePos_inj (va + pageSize + pageSize * k) va h1 h2
      unfold pageSize at hsame halign
      omega
    constructor
    · rw [unmapPass1]
      rw [ihdir, hdir1]
    · rw [unmapPass1]
      rw [ihmap, hmap1]
      have hcnt : (List.range m).countP (fun k =>
          decide (((unmapPass1Step kdir f w va s).directory
              (dirIndex (va + pageSize + pageSize * k))).present = true ∧
            ((unmapPass1Step kdir f w va s).tables
                (dirIndex (va + pageSize + pageSize * k))
                (tableIndex (va + pageSize + pageSize * k))).entry ≠ 0)) =
          (List.range m).countP (fun k =>
            decide ((s.directory (dirIndex (va + pageSize * (k + 1)))).present = true ∧
              (s.tables (dirIndex (va + pageSize * (k + 1)))
                (tableIndex (va + pageSize * (k + 1)))).entry ≠ 0)) := by
        apply List.countP_congr
        intro k hkmem
        have hk := List.mem_range.mp hkmem
        have ha : va + pageSize + pageSize * k = va + pageSize * (k + 1) := by ring
        have ht := htabeq k hk
        rw [ha] at ht
        rw [hdir1, ha, ht]
      rw [hcnt]
      rw [List.range_succ_eq_map, List.countP_cons, List.countP_map]
      have hcomp : (List.range m).countP ((fun k =>
          decide ((s.directory (dirIndex (va + pageSize * k))).present = true ∧
            (s.tables (dirIndex (va + pageSize * k))
              (tableIndex (va + pageSize * k))).entry ≠ 0)) ∘ Nat.succ) =
          (List.range m).countP (fun k =>
            decide ((s.directory (dirIndex (va + pageSize * (k + 1)))).present = true ∧
              (s.tables (dirIndex (va + pageSize * (k + 1)))
                (tableIndex (va + pageSize * (k + 1)))).entry ≠ 0)) := by
        apply List.countP_congr
        intro k _
        rfl
      rw [hcomp]
      simp only [Nat.mul_zero, Nat.add_zero]
      omega

/-- A page-table slot after pass 2 is either its old value or the all-zero
PTE: pass 2 only ever zeroes slots. -/
lemma unmapPass2_tables (dir : Nat → Pde) (f w : Bool) :
    ∀ (n va : Nat) (s : UnmapPass2State) (d t : Nat),
    (unmapPass2 dir f w va n s).tables d t = s.tables d t ∨
    (unmapPass2 dir f w va n s).tables d t = Pte.zero := by
  intro n
  induction n with
  | zero =>
    intro va s d t
    exact Or.inl rfl
  | succ m ih =>
    intro va s d t
    rw [unmapPass2]
    have hstep : (unmapPass2Step dir f w va s).tables d t = s.tables d t ∨
        (unmapPass2Step dir f w va s).tables d t = Pte.zero := by
      simp only [unmapPass2Step]
      by_cases hp : (dir (dirIndex va)).present = false
      · rw [if_pos hp]
        exact Or.inl rfl
      · rw [if_neg hp]
        by_cases he : (s.tables (dirIndex va) (tableIndex va)).entry = 0
        · rw [if_pos he]
          exact Or.inl rfl
        · rw [if_neg he]
          show (if d = dirIndex va ∧ t = tableIndex va then Pte.zero
              else s.tables d t) = s.tables d t ∨
            (if d = dirIndex va ∧ t = tableIndex va then Pte.zero
              else s.tables d t) = Pte.zero
          by_cases hd : d = dirIndex va ∧ t = tableIndex va
          · rw [if_pos hd]
            exact Or.inr rfl
          · rw [if_neg hd]
            exact Or.inl rfl
    rcases ih (va + pageSize) (unmapPass2Step dir f w va s) d t with h | h
    · rw [h]
      exact hstep
    · rw [h]
      exact Or.inr rfl

/-- The directory returned by `MmpUnmapPages` is the pass-1 directory. -/
lemma mmpUnmapPages_directory (dir kdir : Nat → Pde) (tables : Nat → Nat → Pte)
    (r : Int) (va n : Nat) (f w : Bool) :
    (mmpUnmapPages dir kdir tables r va n f w).directory =
      (unmapPass1 kdir f w va n ⟨dir, tables, 0, false⟩).directory := rfl

/-- The resident-set counter returned by `MmpUnmapPages`. -/
lemma mmpUnmapPages_residentSet (dir kdir : Nat → Pde) (tables : Nat → Nat → Pte)
    (r : Int) (va n : Nat) (f w : Bool) :
    (mmpUnmapPages dir kdir tables r va n f w).residentSet =
      (if va < kernelVaStart then
        r - (unmapPass1 kdir f w va n ⟨dir, tables, 0, false⟩).mappedCount
       else r) := rfl

/-- Every page-table slot returned by `MmpUnmapPages` is either the pass-1
value or the all-zero PTE (pass 2, when it runs, only zeroes slots). -/
lemma mmpUnmapPages_tables_cases (dir kdir : Nat → Pde) (tables : Nat → Nat → Pte)
    (r : Int) (va n : Nat) (f w : Bool) (d t : Nat) :
    (mmpUnmapPages dir kdir tables r va n f w).tables d t =
      (unmapPass1 kdir f w va n ⟨dir, tables, 0, false⟩).tables d t ∨
    (mmpUnmapPages dir kdir tables r va n f w).tables d t = Pte.zero := by
  by_cases h2 : w = true ∨ f = true
  · simp only [mmpUnmapPages, if_pos h2]
    exact unmapPass2_tables
      (unmapPass1 kdir f w va n ⟨dir, tables, 0, false⟩).directory f w n va
      ⟨(unmapPass1 kdir f w va n ⟨dir, tables, 0, false⟩).tables, false, []⟩ d t
  · simp only [mmpUnmapPages, if_neg h2]
    exact Or.inl trivial

/-- C2 (amended) — `MmpUnmapPages` on a page-aligned range, starting from
tables in which an empty slot is never marked present: (i) for every page of
the range whose final directory entry is present, the final PTE has its
present bit clear; and (ii) for a range entirely below `KERNEL_VA_START`,
the process resident-set counter drops by the number of pages of the range
whose directory entry is present and whose PTE slot is non-empty
(`MappedCount`), not by the number of pages whose present bit was set. -/
theorem C2_unmap_clears_present_and_shrinks_resident
    (dir kdir : Nat → Pde) (tables : Nat → Nat → Pte) (resident : Int)
    (va n : Nat) (f w : Bool)
    (halign : va % pageSize = 0)
    (hwf : ∀ d t, (tables d t).entry = 0 → (tables d t).present = false) :
    (∀ k, k < n →
      ((mmpUnmapPages dir kdir tables resident va n f w).directory
          (dirIndex (va + pageSize * k))).present = true →
      ((mmpUnmapPages dir kdir tables resident va n f w).tables
          (dirIndex (va + pageSize * k))
          (tableIndex (va + pageSize * k))).present = false) ∧
    (va + n * pageSize ≤ kernelVaStart →
      (mmpUnmapPages dir kdir tables resident va n f w).residentSet =
        resident - ((List.range n).countP (fun k =>
          decide ((dir (dirIndex (va + pageSize * k))).present = true ∧
            (tables (dirIndex (va + pageSize * k))
              (tableIndex (va + pageSize * k))).entry ≠ 0)))) := by
  constructor
  · intro k hk hpres
    rw [mmpUnmapPages_directory] at hpres
    have hclear := unmapPass1_clears kdir f w n va ⟨dir, tables, 0, false⟩
      halign hwf k hk hpres
    rcases mmpUnmapPages_tables_cases dir kdir tables resident va n f w
        (dirIndex (va + pageSize * k)) (tableIndex (va + pageSize * k)) with h | h
    · rw [h]
      exact hclear
    · rw [h]
      rfl
  · intro hbound
    rw [mmpUnmapPages_residentSet]
    by_cases hva : va < kernelVaStart
    · rw [if_pos hva]
      obtain ⟨-, hmap⟩ := unmapPass1_mapped_user kdir f w n va
        ⟨dir, tables, 0, false⟩ halign hbound
      rw [hmap]
      norm_num
    · rw [if_neg hva]
      have hn : n = 0 := by
        unfold pageSize at hbound
        unfold kernelVaStart at hbound hva
        omega
      subst hn
      norm_num

/-- C2 (amended) witness — concrete one-page user unmap of a non-present
mapped PTE: the PTE stays non-present and the resident-set counter drops by
the mapped count 1 even though no present bit was set. -/
theorem C2_unmap_clears_present_and_shrinks_resident_witness :
    ((mmpUnmapPages exDir exKdir exTables 1 0 1 false false).tables
        (dirIndex (0 + pageSize * 0)) (tableIndex (0 + pageSize * 0))).present = false ∧
    (mmpUnmapPages exDir exKdir exTables 1 0 1 false false).residentSet = 0 := by
  have hwf : ∀ d t, (exTables d t).entry = 0 → (exTables d t).present = false := by
    intro d t
    unfold exTables
    by_cases h : d = 0 ∧ t = 0
    · rw [if_pos h]
      intro he
      exact absurd he (by decide)
    · rw [if_neg h]
      intro _
      rfl
  have h := C2_unmap_clears_present_and_shrinks_resident exDir exKdir exTables
    1 0 1 false false (by decide) hwf
  constructor
  · exact h.1 0 (by decide) (by decide)
  · have h2 := h.2 (by decide)
    rw [h2]
    decide

/-! ## Counter-invariant helpers (for C3) -/

/-- Replacing one segment changes the free-page sum by the difference of
the free counts (stated additively to stay in `Nat`). -/
lemma sumFree_set : ∀ (l : List PhysicalMemorySegment) (i : Nat)
    (x : PhysicalMemorySegment), i < l.length →
    (((l.set i x).map (fun s => s.freePages)).sum + (l.getD i default).freePages =
      (l.map (fun s => s.freePages)).sum + x.freePages) := by
  intro l
  induction l with
  | nil =>
    intro i x h
    exact absurd h (by simp)
  | cons a t ih =>
    intro i x h
    cases i with
    | zero =>
      show ((x :: t).map (fun s => s.freePages)).sum + a.freePages =
        ((a :: t).map (fun s => s.freePages)).sum + x.freePages
      simp only [List.map_cons, List.sum_cons]
      omega
    | succ j =>
      have hj : j < t.length := by simpa using h
      have ihj := ih j x hj
      show ((a :: t.set j x).map (fun s => s.freePages)).sum +
          ((a :: t).getD (j + 1) default).freePages =
        ((a :: t).map (fun s => s.freePages)).sum + x.freePages
      simp only [List.map_cons, List.sum_cons, List.getD_cons_succ]
      omega

/-- A segment's free count is at most the database free-page sum. -/
lemma getD_freePages_le_sum (l : List PhysicalMemorySegment) (i : Nat)
    (h : i < l.length) :
    (l.getD i default).freePages ≤ (l.map (fun s => s.freePages)).sum := by
  induction l generalizing i with
  | nil => exact absurd h (by simp)
  | cons a t ih =>
    cases i with
    | zero =>
      show a.freePages ≤ ((a :: t).map (fun s => s.freePages)).sum
      simp only [List.map_cons, List.sum_cons]
      omega
    | succ j =>
      have hj : j < t.length := by simpa using h
      have ihj := ih j hj
      show (t.getD j default).freePages ≤ ((a :: t).map (fun s => s.freePages)).sum
      simp only [List.map_cons, List.sum_cons]
      omega

/-- An all-allocated run splits into its non-paged and its pageable
records. -/
lemma countP_np_pageable : ∀ (run : List Nat), (∀ w ∈ run, w ≠ 0) →
    run.countP recNonPaged + run.countP recPageable = run.length := by
  intro run
  induction run with
  | nil => intro _; rfl
  | cons w t ih =>
    intro h
    have hw : w ≠ 0 := h w (List.mem_cons_self w t)
    have ht := ih (fun x hx => h x (List.mem_cons_of_mem w hx))
    rw [List.countP_cons, List.countP_cons]
    by_cases hodd : w % 2 = 1
    · have h1 : recNonPaged w = true := by
        simp [recNonPaged, hodd]
      have h2 : recPageable w = false := by
        simp [recPageable, hodd]
      rw [h1, h2]
      simp [List.length_cons]
      omega
    · have hev : w % 2 = 0 := by omega
      have h1 : recNonPaged w = false := by
        simp [recNonPaged, hodd]
      have h2 : recPageable w = true := by
        simp [recPageable, hw, hev]
      rw [h1, h2]
      simp [List.length_cons]
      omega

/-- Counter effect of one free-loop iteration: some `r ≤ 1` pages are
released (at least one when the record is non-paged, since the release flag
fires), moving `r` pages from allocated to free; the non-paged counter
drops exactly on non-paged records. -/
lemma freePageStep_counters (entries : Nat → PagingEntry) (mask l2 l1 w : Nat)
    (st : FreeState) :
    ∃ r, r ≤ 1 ∧ (if w % 2 = 1 then 1 else 0) ≤ r ∧
      (freePageStep entries mask l2 l1 w st).2.allocated = st.allocated - r ∧
      (freePageStep entries mask l2 l1 w st).2.freePages = st.freePages + r ∧
      (freePageStep entries mask l2 l1 w st).2.nonPaged =
        st.nonPaged - (if w % 2 = 1 then 1 else 0) := by
  by_cases hodd : w % 2 = 1
  · refine ⟨1, le_refl 1, by simp [hodd], ?_, ?_, ?_⟩
    all_goals simp only [freePageStep, hodd]
    all_goals simp
    all_goals split
    all_goals simp
  · by_cases hpo : (entries w).pagingOut = false
    · refine ⟨1, le_refl 1, by simp [hodd], ?_, ?_, ?_⟩
      all_goals simp only [freePageStep, hodd]
      all_goals simp [hpo]
      all_goals split
      all_goals simp
    · by_cases hrel : st.released = true
      · refine ⟨1, le_refl 1, by simp [hodd], ?_, ?_, ?_⟩
        all_goals simp only [freePageStep, hodd]
        all_goals simp [hpo, hrel]
        all_goals split
        all_goals simp
      · refine ⟨0, by omega, by simp [hodd], ?_, ?_, ?_⟩
        all_goals simp only [freePageStep, hodd]
        all_goals simp [hpo, hrel]

/-- Counter effect of the whole free loop: `R` pages move from allocated to
free, where `R` is at most the run length and at least the number of
non-paged records (each of which certainly fires the release flag); the
non-paged counter drops by exactly the number of non-paged records. -/
lemma freeRun_counters (entries : Nat → PagingEntry) (mask l2 l1 : Nat) :
    ∀ (run : List Nat) (st : FreeState),
    ∃ R, R ≤ run.length ∧ run.countP recNonPaged ≤ R ∧
      (freeRun entries mask l2 l1 run st).2.allocated = st.allocated - R ∧
      (freeRun entries mask l2 l1 run st).2.freePages = st.freePages + R ∧
      (freeRun entries mask l2 l1 run st).2.nonPaged =
        st.nonPaged - run.countP recNonPaged := by
  intro run
  induction run with
  | nil =>
    intro st
    exact ⟨0, by simp, by simp, by simp [freeRun], by simp [freeRun], by simp [freeRun]⟩
  | cons w t ih =>
    intro st
    obtain ⟨r, hr1, hr2, ha, hf, hn⟩ := freePageStep_counters entries mask l2 l1 w st
    obtain ⟨R, hR1, hR2, hA, hF, hN⟩ := ih (freePageStep entries mask l2 l1 w st).2
    refine ⟨r + R, ?_, ?_, ?_, ?_, ?_⟩
    · simp only [List.length_cons]
      omega
    · rw [List.countP_cons]
      have hind : (if recNonPaged w = true then 1 else 0) = (if w % 2 = 1 then 1 else 0) := by
        by_cases hodd : w % 2 = 1
        · simp [recNonPaged, hodd]
        · simp [recNonPaged, hodd]
      rw [hind]
      omega
    · show (freeRun entries mask l2 l1 t (freePageStep entries mask l2 l1 w st).2).2.allocated = _
      rw [hA, ha]
      omega
    · show (freeRun entries mask l2 l1 t (freePageStep entries mask l2 l1 w st).2).2.freePages = _
      rw [hF, hf]
      omega
    · show (freeRun entries mask l2 l1 t (freePageStep entries mask l2 l1 w st).2).2.nonPaged = _
      rw [hN, hn]
      rw [List.countP_cons]
      have hind : (if recNonPaged w = true then 1 else 0) = (if w % 2 = 1 then 1 else 0) := by
        by_cases hodd : w % 2 = 1
        · simp [recNonPaged, hodd]
        · simp [recNonPaged, hodd]
      rw [hind]
      omega

/-- The lock loop raises the non-paged counter by at most one per pageable
record of an all-allocated run. -/
lemma lockRun_np_le : ∀ (run : List Nat) (e : Nat → PagingEntry) (np : Nat),
    (∀ w ∈ run, w ≠ 0) →
    (lockRun e np run).2.2.1 ≤ np + run.countP recPageable := by
  intro run
  induction run with
  | nil =>
    intro e np _
    simp [lockRun]
  | cons w t ih =>
    intro e np h
    have hw : w ≠ 0 := h w (List.mem_cons_self w t)
    have ht : ∀ x ∈ t, x ≠ 0 := fun x hx => h x (List.mem_cons_of_mem w hx)
    rw [List.countP_cons]
    by_cases hodd : w % 2 = 1
    · have hpg : recPageable w = false := by
        simp [recPageable, hodd]
      rw [hpg, lockRun_cons_odd e np w t hodd]
      have := ih e np ht
      simp
      omega
    · have hev : w % 2 = 0 := by omega
      have hpg : recPageable w = true := by
        simp [recPageable, hw, hev]
      rw [hpg]
      by_cases hcap : (e w).lockCount = maxPhysicalPageLockCount
      · rw [lockRun_cons_cap e np w t hev hcap]
        simp
      · rw [lockRun_cons_ok e np w t hev hcap]
        have := ih (updEntry e w
            { lockCount := (e w).lockCount + 1, pagingOut := (e w).pagingOut })
          (if (e w).lockCount = 0 then np + 1 else np) ht
        simp only []
        by_cases h0 : (e w).lockCount = 0
        · rw [if_pos h0] at this ⊢
          simp
          omega
        · rw [if_neg h0] at this ⊢
          simp
          omega

/-- One unlock iteration never raises the non-paged counter. -/
lemma unlockStep_np_le (s : (Nat → PagingEntry) × Nat) (w : Nat) :
    (unlockStep s w).2 ≤ s.2 := by
  unfold unlockStep
  by_cases hodd : w % 2 = 1
  · rw [if_pos hodd]
  · rw [if_neg hodd]
    by_cases h0 : (s.1 w).lockCount - 1 = 0
    · simp only [if_pos h0]
      omega
    · simp only [if_neg h0]
      exact le_refl _

/-- The unlock loop never raises the non-paged counter. -/
lemma unlockRun_np_le : ∀ (run : List Nat) (s : (Nat → PagingEntry) × Nat),
    (unlockRun run s).2 ≤ s.2 := by
  intro run
  induction run with
  | nil =>
    intro s
    exact le_refl _
  | cons w t ih =>
    intro s
    have h1 := unlockStep_np_le s w
    have h2 := ih (unlockStep s w)
    exact le_trans h2 h1

/-- The enable-paging loop never raises the non-paged counter. -/
lemma enableRun_np_le (lockPages : Bool) :
    ∀ (pes : List Nat) (s : (Nat → PagingEntry) × Nat),
    (pes.foldl (enablePagingStep lockPages) s).2 ≤ s.2 := by
  intro pes
  induction pes with
  | nil =>
    intro s
    exact le_refl _
  | cons p t ih =>
    intro s
    have h1 : (enablePagingStep lockPages s p).2 ≤ s.2 := by
      unfold enablePagingStep
      by_cases hl : lockPages = true
      · rw [if_pos hl]
      · rw [if_neg hl]
        omega
    have h2 := ih (enablePagingStep lockPages s p)
    exact le_trans h2 h1

/-- The free path preserves the counter invariant: for an all-allocated
run whose non-paged records are covered by the non-paged counter and whose
pageable records sit in the allocated-but-not-non-paged slack. -/
lemma counterInv_free (db : PhysDb) (pn count i : Nat)
    (hfind : findSegmentIdx db.segments pn = Option.some i)
    (hall : ∀ w ∈ segRun db i pn count, w ≠ 0)
    (hN : (segRun db i pn count).countP recNonPaged ≤ db.nonPagedPages)
    (hP : db.nonPagedPages + (segRun db i pn count).countP recPageable ≤
      db.allocatedPages)
    (hinv : CounterInv db) :
    CounterInv (mmFreePhysicalPages db pn count).db := by
  have hi : i < db.segments.length := findSegmentIdx_lt_length _ _ _ hfind
  have hsplit := countP_np_pageable (segRun db i pn count) hall
  unfold segRun at hall hN hP hsplit
  obtain ⟨R, hR1, hR2, hA, hF, hN2⟩ :=
    freeRun_counters db.entries db.countMask db.level2Low db.level1Low
      (((db.segments.getD i default).recs.drop
          (pn - (db.segments.getD i default).startPage)).take count)
      ⟨(db.segments.getD i default).freePages, db.allocatedPages,
       db.nonPagedPages, false, false, db.warningLevel, db.freeCount, []⟩
  simp only [mmFreePhysicalPages, hfind]
  simp only [] at hA hF hN2
  have hsum := sumFree_set db.segments i
    { db.segments.getD i default with
      freePages := (freeRun db.entries db.countMask db.level2Low db.level1Low
        (((db.segments.getD i default).recs.drop
            (pn - (db.segments.getD i default).startPage)).take count)
        ⟨(db.segments.getD i default).freePages, db.allocatedPages,
         db.nonPagedPages, false, false, db.warningLevel, db.freeCount, []⟩).2.freePages,
      recs := (db.segments.getD i default).recs.take
          (pn - (db.segments.getD i default).startPage) ++
        (freeRun db.entries db.countMask db.level2Low db.level1Low
          (((db.segments.getD i default).recs.drop
              (pn - (db.segments.getD i default).startPage)).take count)
          ⟨(db.segments.getD i default).freePages, db.allocatedPages,
           db.nonPagedPages, false, false, db.warningLevel, db.freeCount, []⟩).1 ++
        (db.segments.getD i default).recs.drop
          (pn - (db.segments.getD i default).startPage + count) } hi
  unfold CounterInv dbSumFreePages at hinv ⊢
  simp only [] at hsum ⊢
  rw [hA, hF, hN2] at *
  omega

/-- The contiguous-allocation path preserves the counter invariant when the
chosen segment has enough free pages (the find loop only returns segments
with `FreePages ≥ PageCount`). -/
lemma counterInv_allocFound (db : PhysDb) (i off pageCount : Nat)
    (hi : i < db.segments.length)
    (hfree : pageCount ≤ (db.segments.getD i default).freePages)
    (hinv : CounterInv db) :
    CounterInv (mmpAllocatePhysicalPagesFound db i off pageCount).db := by
  have hml := allocMarkLoop_eq pageCount
    ⟨(db.segments.getD i default).freePages, db.allocatedPages, db.nonPagedPages⟩
  have hle := getD_freePages_le_sum db.segments i hi
  simp only [mmpAllocatePhysicalPagesFound, hml]
  have hsum := sumFree_set db.segments i
    { db.segments.getD i default with
      freePages := (db.segments.getD i default).freePages - pageCount,
      recs := markRecsNonPaged (db.segments.getD i default).recs off pageCount } hi
  unfold CounterInv dbSumFreePages at hinv ⊢
  simp only [] at hsum ⊢
  omega

/-- The identity-mappable allocation path preserves the counter invariant
under the same segment precondition. -/
lemma counterInv_allocIdentity (db : PhysDb) (i off pageCount : Nat)
    (hi : i < db.segments.length)
    (hfree : pageCount ≤ (db.segments.getD i default).freePages)
    (hinv : CounterInv db) :
    CounterInv (mmpAllocateIdentityMappableFound db i off pageCount) := by
  have hml := allocMarkLoop_eq pageCount
    ⟨(db.segments.getD i default).freePages, db.allocatedPages, db.nonPagedPages⟩
  have hle := getD_freePages_le_sum db.segments i hi
  simp only [mmpAllocateIdentityMappableFound, hml]
  have hsum := sumFree_set db.segments i
    { db.segments.getD i default with
      freePages := (db.segments.getD i default).freePages - pageCount,
      recs := markRecsNonPaged (db.segments.getD i default).recs off pageCount } hi
  unfold CounterInv dbSumFreePages at hinv ⊢
  simp only [] at hsum ⊢
  omega

/-- Unlock preserves the counter invariant unconditionally: it only lowers
the non-paged counter. -/
lemma counterInv_unlock (db : PhysDb) (pn count : Nat) (hinv : CounterInv db) :
    CounterInv (mmpUnlockPhysicalPages db pn count) := by
  cases hfind : findSegmentIdx db.segments pn with
  | none =>
    simp only [mmpUnlockPhysicalPages, hfind]
    exact hinv
  | some i =>
    simp only [mmpUnlockPhysicalPages, hfind]
    have hle := unlockRun_np_le
      (((db.segments.getD i default).recs.drop
          (pn - (db.segments.getD i default).startPage)).take count)
      (db.entries, db.nonPagedPages)
    unfold CounterInv dbSumFreePages at hinv ⊢
    simp only [] at hle ⊢
    omega

/-- Lock preserves the counter invariant for an all-allocated run whose
pageable records sit in the allocated-but-not-non-paged slack, including
the failure rollback path. -/
lemma counterInv_lock (db : PhysDb) (pn count i : Nat)
    (hfind : findSegmentIdx db.segments pn = Option.some i)
    (hall : ∀ w ∈ segRun db i pn count, w ≠ 0)
    (hP : db.nonPagedPages + (segRun db i pn count).countP recPageable ≤
      db.allocatedPages)
    (hinv : CounterInv db) :
    CounterInv (mmpLockPhysicalPages db pn count).2 := by
  have hle := lockRun_np_le (segRun db i pn count) db.entries db.nonPagedPages hall
  unfold segRun at hle hP
  have hmid : CounterInv { db with
      entries := (lockRun db.entries db.nonPagedPages
        (((db.segments.getD i default).recs.drop
            (pn - (db.segments.getD i default).startPage)).take count)).2.1,
      nonPagedPages := (lockRun db.entries db.nonPagedPages
        (((db.segments.getD i default).recs.drop
            (pn - (db.segments.getD i default).startPage)).take count)).2.2.1 } := by
    unfold CounterInv dbSumFreePages at hinv ⊢
    simp only []
    omega
  simp only [mmpLockPhysicalPages, hfind]
  by_cases hs : (lockRun db.entries db.nonPagedPages
      (((db.segments.getD i default).recs.drop
          (pn - (db.segments.getD i default).startPage)).take count)).1 =
      KStatus.success
  · rw [if_pos hs]
    exact hmid
  · rw [if_neg hs]
    by_cases hz : (lockRun db.entries db.nonPagedPages
        (((db.segments.getD i default).recs.drop
            (pn - (db.segments.getD i default).startPage)).take count)).2.2.2 ≠ 0
    · rw [if_pos hz]
      exact counterInv_unlock _ pn _ hmid
    · rw [if_neg hz]
      exact hmid

/-- Enabling paging preserves the counter invariant unconditionally: the
segment free counts are untouched and the non-paged counter only drops. -/
lemma counterInv_enable (db : PhysDb) (pn : Nat) (pes : List Nat)
    (lockPages : Bool) (hinv : CounterInv db) :
    CounterInv (mmpEnablePagingOnPhysicalAddress db pn pes lockPages) := by
  cases hfind : findSegmentIdx db.segments pn with
  | none =>
    simp only [mmpEnablePagingOnPhysicalAddress, hfind]
    exact hinv
  | some i =>
    have hi : i < db.segments.length := findSegmentIdx_lt_length _ _ _ hfind
    simp only [mmpEnablePagingOnPhysicalAddress, hfind]
    have hle := enableRun_np_le lockPages pes (db.entries, db.nonPagedPages)
    have hsum := sumFree_set db.segments i
      { db.segments.getD i default with
        recs := (db.segments.getD i default).recs.take
            (pn - (db.segments.getD i default).startPage) ++ pes ++
          (db.segments.getD i default).recs.drop
            (pn - (db.segments.getD i default).startPage + pes.length) } hi
    unfold CounterInv dbSumFreePages at hinv ⊢
    simp only [] at hle hsum ⊢
    omega

/-- With page-aligned descriptors the physical byte total is page-aligned. -/
lemma physBytes_aligned : ∀ (l : List MemoryDescriptor),
    (∀ d ∈ l, d.size % pageSize = 0) → physBytes l % pageSize = 0 := by
  intro l
  induction l with
  | nil =>
    intro _
    rfl
  | cons d t ih =>
    intro h
    have hd := h d (List.mem_cons_self d t)
    have ht := ih (fun x hx => h x (List.mem_cons_of_mem d hx))
    show ((if isPhysicalMemoryType d.type then d.size else 0) + physBytes t) %
      pageSize = 0
    by_cases hp : isPhysicalMemoryType d.type
    · rw [if_pos hp]
      unfold pageSize at hd ht ⊢
      omega
    · rw [if_neg hp]
      unfold pageSize at ht ⊢
      omega

/-- With page-aligned descriptors the per-descriptor page total equals the
byte total divided by the page size. -/
lemma physPages_eq : ∀ (l : List MemoryDescriptor),
    (∀ d ∈ l, d.size % pageSize = 0) →
    physPages l = physBytes l / pageSize := by
  intro l
  induction l with
  | nil =>
    intro _
    rfl
  | cons d t ih =>
    intro h
    have hd := h d (List.mem_cons_self d t)
    have ht := ih (fun x hx => h x (List.mem_cons_of_mem d hx))
    have hta := physBytes_aligned t (fun x hx => h x (List.mem_cons_of_mem d hx))
    show (if isPhysicalMemoryType d.type then d.size / pageSize else 0) +
        physPages t =
      ((if isPhysicalMemoryType d.type then d.size else 0) + physBytes t) / pageSize
    by_cases hp : isPhysicalMemoryType d.type
    · rw [if_pos hp, if_pos hp, ht]
      unfold pageSize at hd hta ⊢
      omega
    · rw [if_neg hp, if_neg hp, ht]
      unfold pageSize at hta ⊢
      omega

/-- The counting pass (first `MmMdIterate`, with `CurrentPage == NULL` and
no page budget yet) accumulates exactly the physical descriptors' bytes,
flips no mode flags, and leaves the descriptor list unchanged when every
physical descriptor lies below the maximum physical address and no free
descriptor starts at address zero. -/
lemma initIterate_pass1 :
    ∀ (ds : List MemoryDescriptor) (c : InitIterContext),
    c.building = false →
    c.totalMemoryPages = 0 →
    (∀ d ∈ ds, isPhysicalMemoryType d.type = true →
      d.base + d.size ≤ maxPhysicalAddress) →
    (∀ d ∈ ds, isMemoryFreeType d.type = true → d.base ≠ 0) →
    (initIterate c ds).1.totalMemoryBytes = c.totalMemoryBytes + physBytes ds ∧
    (initIterate c ds).1.building = false ∧
    (initIterate c ds).1.totalMemoryPages = 0 ∧
    (initIterate c ds).2 = ds := by
  intro ds
  induction ds with
  | nil =>
    intro c hb h0 _ _
    exact ⟨by simp [initIterate, physBytes], hb, h0, rfl⟩
  | cons d t ih =>
    intro c hb h0 hmax hfz
    have hmaxt : ∀ x ∈ t, isPhysicalMemoryType x.type = true →
        x.base + x.size ≤ maxPhysicalAddress :=
      fun x hx => hmax x (List.mem_cons_of_mem d hx)
    have hfzt : ∀ x ∈ t, isMemoryFreeType x.type = true → x.base ≠ 0 :=
      fun x hx => hfz x (List.mem_cons_of_mem d hx)
    by_cases hphys : isPhysicalMemoryType d.type = true
    · by_cases hge : d.base ≥ maxPhysicalAddress
      · have hsz : d.size = 0 := by
          have := hmax d (List.mem_cons_self d t) hphys
          omega
        have hstep : initIterRoutine c d = (c, d) := by
          simp [initIterRoutine, hphys, h0, hge]
        have hrest := ih c hb h0 hmaxt hfzt
        show ((initIterate (initIterRoutine c d).1 t).1.totalMemoryBytes = _) ∧
          ((initIterate (initIterRoutine c d).1 t).1.building = false) ∧
          ((initIterate (initIterRoutine c d).1 t).1.totalMemoryPages = 0) ∧
          ((initIterRoutine c d).2 :: (initIterate (initIterRoutine c d).1 t).2 = d :: t)
        rw [hstep]
        refine ⟨?_, hrest.2.1, hrest.2.2.1, by rw [hrest.2.2.2]⟩
        rw [hrest.1]
        show c.totalMemoryBytes + physBytes t =
          c.totalMemoryBytes +
            ((if isPhysicalMemoryType d.type then d.size else 0) + physBytes t)
        rw [if_pos hphys, hsz]
        omega
      · have htrim : ¬ (d.base + d.size > maxPhysicalAddress) := by
          have := hmax d (List.mem_cons_self d t) hphys
          omega
        have hzf : ¬ (d.base = 0 ∧ isMemoryFreeType d.type = true) := by
          rintro ⟨hb0, hfree⟩
          exact hfz d (List.mem_cons_self d t) hfree hb0
        have hstep : initIterRoutine c d = (initIterAccount c d, d) := by
          simp only [initIterRoutine]
          rw [if_neg (by simp [hphys]), if_neg (by simp [h0]), if_neg hge,
            if_neg htrim]
          rw [if_neg ?_]
          simpa using hzf
        have hacc : (initIterAccount c d).totalMemoryBytes =
              c.totalMemoryBytes + d.size ∧
            (initIterAccount c d).building = false ∧
            (initIterAccount c d).totalMemoryPages = 0 := by
          simp only [initIterAccount]
          split_ifs with h1 h2 h3
          all_goals simp_all
        have hrest := ih (initIterAccount c d) hacc.2.1 hacc.2.2 hmaxt hfzt
        show ((initIterate (initIterRoutine c d).1 t).1.totalMemoryBytes = _) ∧
          ((initIterate (initIterRoutine c d).1 t).1.building = false) ∧
          ((initIterate (initIterRoutine c d).1 t).1.totalMemoryPages = 0) ∧
          ((initIterRoutine c d).2 :: (initIterate (initIterRoutine c d).1 t).2 = d :: t)
        rw [hstep]
        refine ⟨?_, hrest.2.1, hrest.2.2.1, by rw [hrest.2.2.2]⟩
        rw [hrest.1, hacc.1]
        show c.totalMemoryBytes + d.size + physBytes t =
          c.totalMemoryBytes +
            ((if isPhysicalMemoryType d.type then d.size else 0) + physBytes t)
        rw [if_pos hphys]
        omega
    · have hstep : initIterRoutine c d = (c, d) := by
        simp [initIterRoutine, hphys]
      have hrest := ih c hb h0 hmaxt hfzt
      show ((initIterate (initIterRoutine c d).1 t).1.totalMemoryBytes = _) ∧
        ((initIterate (initIterRoutine c d).1 t).1.building = false) ∧
        ((initIterate (initIterRoutine c d).1 t).1.totalMemoryPages = 0) ∧
        ((initIterRoutine c d).2 :: (initIterate (initIterRoutine c d).1 t).2 = d :: t)
      rw [hstep]
      refine ⟨?_, hrest.2.1, hrest.2.2.1, by rw [hrest.2.2.2]⟩
      rw [hrest.1]
      show c.totalMemoryBytes + physBytes t =
        c.totalMemoryBytes +
          ((if isPhysicalMemoryType d.type then d.size else 0) + physBytes t)
      rw [if_neg (by simpa using hphys)]
      omega

/-- The bootstrap carve preserves the physical byte total and all the map
well-formedness facts the initialization proof threads through: carving
`pages` pages off the front of a free descriptor only retypes free bytes as
MM-structures bytes (both physical). -/
lemma earlyAllocateMemory_spec (pages : Nat) :
    ∀ (map map2 : List MemoryDescriptor),
    earlyAllocateMemory pages map = Option.some map2 →
    (∀ d ∈ map, d.base % pageSize = 0 ∧ d.size % pageSize = 0) →
    (∀ d ∈ map, isPhysicalMemoryType d.type = true →
      d.base + d.size ≤ maxPhysicalAddress) →
    (∀ d ∈ map, isMemoryFreeType d.type = true → d.base ≠ 0) →
    physBytes map2 = physBytes map ∧
    (∀ d ∈ map2, d.base % pageSize = 0 ∧ d.size % pageSize = 0) ∧
    (∀ d ∈ map2, isPhysicalMemoryType d.type = true →
      d.base + d.size ≤ maxPhysicalAddress) ∧
    (∀ d ∈ map2, isMemoryFreeType d.type = true → d.base ≠ 0) := by
  intro map
  induction map with
  | nil =>
    intro map2 h
    exact absurd h (by simp [earlyAllocateMemory])
  | cons d t ih =>
    intro map2 h halign hmax hfz
    have halignd := halign d (List.mem_cons_self d t)
    have haligt : ∀ x ∈ t, x.base % pageSize = 0 ∧ x.size % pageSize = 0 :=
      fun x hx => halign x (List.mem_cons_of_mem d hx)
    have hmaxt : ∀ x ∈ t, isPhysicalMemoryType x.type = true →
        x.base + x.size ≤ maxPhysicalAddress :=
      fun x hx => hmax x (List.mem_cons_of_mem d hx)
    have hfzt : ∀ x ∈ t, isMemoryFreeType x.type = true → x.base ≠ 0 :=
      fun x hx => hfz x (List.mem_cons_of_mem d hx)
    by_cases hc : isMemoryFreeType d.type = true ∧ pages * pageSize ≤ d.size
    · rw [earlyAllocateMemory, if_pos hc] at h
      have hdfree : isMemoryFreeType d.type = true := hc.1
      have hdphys : isPhysicalMemoryType d.type = true := by
        cases dt : d.type <;> simp [isPhysicalMemoryType]
        rw [dt] at hdfree
        simp [isMemoryFreeType] at hdfree
      have hdmax := hmax d (List.mem_cons_self d t) hdphys
      have hdb0 := hfz d (List.mem_cons_self d t) hdfree
      have hm2 := Option.some.injEq _ _ ▸ h
      rw [Option.some.injEq] at h
      by_cases hsz : d.size = pages * pageSize
      · rw [if_pos hsz] at h
        subst h
        refine ⟨?_, ?_, ?_, ?_⟩
        · show (if isPhysicalMemoryType MemoryType.mmStructures then pages * pageSize
              else 0) + physBytes t =
            (if isPhysicalMemoryType d.type then d.size else 0) + physBytes t
          rw [if_pos (by simp [isPhysicalMemoryType]), if_pos hdphys, hsz]
        · intro x hx
          rcases List.mem_cons.mp hx with hx1 | hx2
          · rw [hx1]
            exact ⟨halignd.1, by
              show pages * pageSize % pageSize = 0
              simp [Nat.mul_mod_left]⟩
          · exact haligt x hx2
        · intro x hx hp
          rcases List.mem_cons.mp hx with hx1 | hx2
          · rw [hx1]
            show d.base + pages * pageSize ≤ maxPhysicalAddress
            omega
          · exact hmaxt x hx2 hp
        · intro x hx hf
          rcases List.mem_cons.mp hx with hx1 | hx2
          · rw [hx1] at hf
            simp [isMemoryFreeType] at hf
          · exact hfzt x hx2 hf
      · rw [if_neg hsz] at h
        subst h
        refine ⟨?_, ?_, ?_, ?_⟩
        · show (if isPhysicalMemoryType MemoryType.mmStructures then pages * pageSize
              else 0) +
            ((if isPhysicalMemoryType d.type then d.size - pages * pageSize else 0) +
              physBytes t) =
            (if isPhysicalMemoryType d.type then d.size else 0) + physBytes t
          rw [if_pos (by simp [isPhysicalMemoryType]), if_pos hdphys, if_pos hdphys]
          omega
        · intro x hx
          rcases List.mem_cons.mp hx with hx1 | hx2
          · rw [hx1]
            exact ⟨halignd.1, by
              show pages * pageSize % pageSize = 0
              simp [Nat.mul_mod_left]⟩
          · rcases List.mem_cons.mp hx2 with hx3 | hx4
            · rw [hx3]
              constructor
              · show (d.base + pages * pageSize) % pageSize = 0
                have := halignd.1
                unfold pageSize at this ⊢
                omega
              · show (d.size - pages * pageSize) % pageSize = 0
                have := halignd.2
                unfold pageSize at this ⊢
                omega
            · exact haligt x hx4
        · intro x hx hp
          rcases List.mem_cons.mp hx with hx1 | hx2
          · rw [hx1]
            show d.base + pages * pageSize ≤ maxPhysicalAddress
            omega
          · rcases List.mem_cons.mp hx2 with hx3 | hx4
            · rw [hx3]
              show d.base + pages * pageSize + (d.size - pages * pageSize) ≤
                maxPhysicalAddress
              omega
            · exact hmaxt x hx4 hp
        · intro x hx hf
          rcases List.mem_cons.mp hx with hx1 | hx2
          · rw [hx1] at hf
            simp [isMemoryFreeType] at hf
          · rcases List.mem_cons.mp hx2 with hx3 | hx4
            · rw [hx3]
              show d.base + pages * pageSize ≠ 0
              unfold pageSize
              intro hcon
              exact hdb0 (by omega)
            · exact hfzt x hx4 hf
    · rw [earlyAllocateMemory, if_neg hc] at h
      cases hrec : earlyAllocateMemory pages t with
      | none =>
        rw [hrec] at h
        exact absurd h (by simp)
      | some m2 =>
        rw [hrec] at h
        replace h : d :: m2 = map2 := by simpa using h
        subst h
        obtain ⟨hb, ha2, hm2, hf2⟩ := ih m2 hrec haligt hmaxt hfzt
        refine ⟨?_, ?_, ?_, ?_⟩
        · show (if isPhysicalMemoryType d.type then d.size else 0) + physBytes m2 =
            (if isPhysicalMemoryType d.type then d.size else 0) + physBytes t
          omega
        · intro x hx
          rcases List.mem_cons.mp hx with hx1 | hx2
          · rw [hx1]
            exact halignd
          · exact ha2 x hx2
        · intro x hx hp
          rcases List.mem_cons.mp hx with hx1 | hx2
          · rw [hx1] at hp ⊢
            exact hmax d (List.mem_cons_self d t) hp
          · exact hm2 x hx2 hp
        · intro x hx hf
          rcases List.mem_cons.mp hx with hx1 | hx2
          · rw [hx1] at hf ⊢
            exact hfz d (List.mem_cons_self d t) hf
          · exact hf2 x hx2 hf

/-- Appending records to the last segment adds exactly the per-descriptor
free-count increment to the free-page sum. -/
lemma updateLast_freePages_sum_of (f : PhysicalMemorySegment → PhysicalMemorySegment)
    (a : Nat) (hf : ∀ s, (f s).freePages = s.freePages + a) :
    ∀ l : List PhysicalMemorySegment, l ≠ [] →
    ((updateLast f l).map (fun s => s.freePages)).sum =
      (l.map (fun s => s.freePages)).sum + a := by
  intro l
  induction l with
  | nil =>
    intro h
    exact absurd rfl h
  | cons x t ih =>
    intro _
    cases t with
    | nil =>
      simp [updateLast, hf x]
    | cons y u =>
      simp only [updateLast, List.map_cons, List.sum_cons]
      rw [ih (by simp)]
      simp only [List.map_cons, List.sum_cons]
      omega

/-- `updateLast` keeps a list nonempty. -/
lemma updateLast_ne_nil (f : PhysicalMemorySegment → PhysicalMemorySegment) :
    ∀ l : List PhysicalMemorySegment, l ≠ [] → updateLast f l ≠ [] := by
  intro l
  cases l with
  | nil =>
    intro h
    exact absurd rfl h
  | cons x t =>
    intro _
    cases t with
    | nil => simp [updateLast]
    | cons y u => simp [updateLast]

/-- Field accounting of the iteration-routine tail during the building
pass: `todo = min(pages, budget remainder)` records are appended to the
last segment — free records raising the free sum for a free descriptor,
allocated non-paged records raising both global counters otherwise — and
the segment list stays nonempty. -/
lemma initIterAccount_build (c : InitIterContext) (d : MemoryDescriptor)
    (hb : c.building = true) (hne : c.segments = [] → c.lastEnd = 0) :
    (initIterAccount c d).building = true ∧
    (initIterAccount c d).totalMemoryPages = c.totalMemoryPages ∧
    (initIterAccount c d).pagesDone =
      c.pagesDone + min (d.size / pageSize) (c.totalMemoryPages - c.pagesDone) ∧
    (initIterAccount c d).allocated = c.allocated +
      (if isMemoryFreeType d.type = true then 0
       else min (d.size / pageSize) (c.totalMemoryPages - c.pagesDone)) ∧
    (initIterAccount c d).nonPaged = c.nonPaged +
      (if isMemoryFreeType d.type = true then 0
       else min (d.size / pageSize) (c.totalMemoryPages - c.pagesDone)) ∧
    ((initIterAccount c d).segments.map (fun s => s.freePages)).sum =
      (c.segments.map (fun s => s.freePages)).sum +
      (if isMemoryFreeType d.type = true then
        min (d.size / pageSize) (c.totalMemoryPages - c.pagesDone) else 0) ∧
    (initIterAccount c d).segments ≠ [] := by
  by_cases h1 : c.lastEnd = 0 ∨ c.lastEnd ≠ d.base
  · by_cases hf : isMemoryFreeType d.type = true
    · simp [initIterAccount, hb, h1, hf]
      constructor
      · rw [updateLast_freePages_sum_of
          (fun s => ⟨s.startPage,
            s.freePages + min (d.size / pageSize) (c.totalMemoryPages - c.pagesDone),
            s.recs ++ List.replicate
              (min (d.size / pageSize) (c.totalMemoryPages - c.pagesDone)) 0⟩)
          (min (d.size / pageSize) (c.totalMemoryPages - c.pagesDone))
          (fun s => rfl)
          (c.segments ++ [(⟨d.base / pageSize, 0, []⟩ : PhysicalMemorySegment)])
          (by simp)]
        simp
      · exact updateLast_ne_nil _ _ (by simp)
    · simp [initIterAccount, hb, h1, hf]
      constructor
      · rw [updateLast_freePages_sum_of
          (fun s => ⟨s.startPage, s.freePages,
            s.recs ++ List.replicate
              (min (d.size / pageSize) (c.totalMemoryPages - c.pagesDone)) 1⟩)
          0 (fun s => rfl)
          (c.segments ++ [(⟨d.base / pageSize, 0, []⟩ : PhysicalMemorySegment)])
          (by simp)]
        simp
      · exact updateLast_ne_nil _ _ (by simp)
  · have hseg : c.segments ≠ [] := by
      intro hcon
      exact absurd (Or.inl (hne hcon)) h1
    by_cases hf : isMemoryFreeType d.type = true
    · simp [initIterAccount, hb, h1, hf]
      constructor
      · rw [updateLast_freePages_sum_of
          (fun s => ⟨s.startPage,
            s.freePages + min (d.size / pageSize) (c.totalMemoryPages - c.pagesDone),
            s.recs ++ List.replicate
              (min (d.size / pageSize) (c.totalMemoryPages - c.pagesDone)) 0⟩)
          (min (d.size / pageSize) (c.totalMemoryPages - c.pagesDone))
          (fun s => rfl) c.segments hseg]
      · exact updateLast_ne_nil _ _ hseg
    · simp [initIterAccount, hb, h1, hf]
      constructor
      · rw [updateLast_freePages_sum_of
          (fun s => ⟨s.startPage, s.freePages,
            s.recs ++ List.replicate
              (min (d.size / pageSize) (c.totalMemoryPages - c.pagesDone)) 1⟩)
          0 (fun s => rfl) c.segments hseg]
        simp
      · exact updateLast_ne_nil _ _ hseg

/-- The building pass (second `MmMdIterate`): starting from a state whose
free-sum/allocated/non-paged counters match its `PagesInitialized` count,
with enough budget for every remaining physical descriptor, the pass hands
out one record per physical page, keeps free-sum + allocated = pages done
and non-paged = allocated, and consumes exactly the physical page total. -/
lemma initIterate_pass2 :
    ∀ (ds : List MemoryDescriptor) (c : InitIterContext),
    c.building = true →
    (∀ d ∈ ds, d.base % pageSize = 0 ∧ d.size % pageSize = 0) →
    (∀ d ∈ ds, isPhysicalMemoryType d.type = true →
      d.base + d.size ≤ maxPhysicalAddress) →
    (∀ d ∈ ds, isMemoryFreeType d.type = true → d.base ≠ 0) →
    c.pagesDone + physPages ds ≤ c.totalMemoryPages →
    (c.segments = [] → c.lastEnd = 0) →
    (c.segments.map (fun s => s.freePages)).sum + c.allocated = c.pagesDone →
    c.nonPaged = c.allocated →
    ((initIterate c ds).1.segments.map (fun s => s.freePages)).sum +
        (initIterate c ds).1.allocated = (initIterate c ds).1.pagesDone ∧
    (initIterate c ds).1.nonPaged = (initIterate c ds).1.allocated ∧
    (initIterate c ds).1.pagesDone = c.pagesDone + physPages ds := by
  intro ds
  induction ds with
  | nil =>
    intro c _ _ _ _ _ _ hsum hnp
    exact ⟨hsum, hnp, by simp [initIterate, physPages]⟩
  | cons d t ih =>
    intro c hb halign hmax hfz hbud hne hsum hnp
    have haligt : ∀ x ∈ t, x.base % pageSize = 0 ∧ x.size % pageSize = 0 :=
      fun x hx => halign x (List.mem_cons_of_mem d hx)
    have hmaxt : ∀ x ∈ t, isPhysicalMemoryType x.type = true →
        x.base + x.size ≤ maxPhysicalAddress :=
      fun x hx => hmax x (List.mem_cons_of_mem d hx)
    have hfzt : ∀ x ∈ t, isMemoryFreeType x.type = true → x.base ≠ 0 :=
      fun x hx => hfz x (List.mem_cons_of_mem d hx)
    have hpp : physPages (d :: t) =
        (if isPhysicalMemoryType d.type then d.size / pageSize else 0) +
          physPages t := rfl
    by_cases hphys : isPhysicalMemoryType d.type = true
    · by_cases hg : c.totalMemoryPages ≠ 0 ∧ c.pagesDone = c.totalMemoryPages
      · have hsz : d.size / pageSize = 0 := by
          have hb2 := hbud
          rw [hpp, if_pos hphys] at hb2
          simp only [pageSize] at hb2 ⊢
          omega
        have hstep : initIterRoutine c d = (c, d) := by
          simp [initIterRoutine, hphys, hg]
        have hbt : c.pagesDone + physPages t ≤ c.totalMemoryPages := by
          have hb2 := hbud
          rw [hpp, if_pos hphys] at hb2
          omega
        have hrest := ih c hb haligt hmaxt hfzt hbt hne hsum hnp
        show (((initIterate (initIterRoutine c d).1 t).1.segments.map
            (fun s => s.freePages)).sum +
              (initIterate (initIterRoutine c d).1 t).1.allocated =
            (initIterate (initIterRoutine c d).1 t).1.pagesDone) ∧
          ((initIterate (initIterRoutine c d).1 t).1.nonPaged =
            (initIterate (initIterRoutine c d).1 t).1.allocated) ∧
          ((initIterate (initIterRoutine c d).1 t).1.pagesDone =
            c.pagesDone + physPages (d :: t))
        rw [hstep]
        refine ⟨hrest.1, hrest.2.1, ?_⟩
        rw [hrest.2.2, hpp, if_pos hphys, hsz]
        omega
      · by_cases hge : d.base ≥ maxPhysicalAddress
        · have hsz : d.size = 0 := by
            have := hmax d (List.mem_cons_self d t) hphys
            omega
          have hstep : initIterRoutine c d = (c, d) := by
            simp [initIterRoutine, hphys, hg, hge]
          have hbt : c.pagesDone + physPages t ≤ c.totalMemoryPages := by
            have hb2 := hbud
            rw [hpp, if_pos hphys, hsz] at hb2
            simp at hb2
            omega
          have hrest := ih c hb haligt hmaxt hfzt hbt hne hsum hnp
          show (((initIterate (initIterRoutine c d).1 t).1.segments.map
              (fun s => s.freePages)).sum +
                (initIterate (initIterRoutine c d).1 t).1.allocated =
              (initIterate (initIterRoutine c d).1 t).1.pagesDone) ∧
            ((initIterate (initIterRoutine c d).1 t).1.nonPaged =
              (initIterate (initIterRoutine c d).1 t).1.allocated) ∧
            ((initIterate (initIterRoutine c d).1 t).1.pagesDone =
              c.pagesDone + physPages (d :: t))
          rw [hstep]
          refine ⟨hrest.1, hrest.2.1, ?_⟩
          rw [hrest.2.2, hpp, if_pos hphys, hsz]
          simp
        · have htrim : ¬ (d.base + d.size > maxPhysicalAddress) := by
            have := hmax d (List.mem_cons_self d t) hphys
            omega
          have hzf : ¬ (d.base = 0 ∧ isMemoryFreeType d.type = true) := by
            rintro ⟨hb0, hfree⟩
            exact hfz d (List.mem_cons_self d t) hfree hb0
          have hstep : initIterRoutine c d = (initIterAccount c d, d) := by
            simp only [initIterRoutine]
            rw [if_neg (by simp [hphys]), if_neg hg, if_neg hge, if_neg htrim]
            rw [if_neg ?_]
            simpa using hzf
          obtain ⟨hab, haB, hapd, haal, hanp, hasum, hanil⟩ :=
            initIterAccount_build c d hb hne
          have hmin : min (d.size / pageSize) (c.totalMemoryPages - c.pagesDone) =
              d.size / pageSize := by
            have hb2 := hbud
            rw [hpp, if_pos hphys] at hb2
            simp only [pageSize] at hb2 ⊢
            omega
          have hbt : (initIterAccount c d).pagesDone + physPages t ≤
              (initIterAccount c d).totalMemoryPages := by
            rw [haB, hapd, hmin]
            have hb2 := hbud
            rw [hpp, if_pos hphys] at hb2
            simp only [pageSize] at hb2 ⊢
            omega
          have hne2 : (initIterAccount c d).segments = [] →
              (initIterAccount c d).lastEnd = 0 :=
            fun hcon => absurd hcon hanil
          have hsum2 : ((initIterAccount c d).segments.map
              (fun s => s.freePages)).sum + (initIterAccount c d).allocated =
              (initIterAccount c d).pagesDone := by
            rw [hasum, haal, hapd]
            by_cases hf : isMemoryFreeType d.type = true
            · rw [if_pos hf, if_pos hf]
              omega
            · rw [if_neg hf, if_neg hf]
              omega
          have hnp2 : (initIterAccount c d).nonPaged =
              (initIterAccount c d).allocated := by
            rw [hanp, haal, hnp]
          have hrest := ih (initIterAccount c d) hab haligt hmaxt hfzt hbt
            hne2 hsum2 hnp2
          show (((initIterate (initIterRoutine c d).1 t).1.segments.map
              (fun s => s.freePages)).sum +
                (initIterate (initIterRoutine c d).1 t).1.allocated =
              (initIterate (initIterRoutine c d).1 t).1.pagesDone) ∧
            ((initIterate (initIterRoutine c d).1 t).1.nonPaged =
              (initIterate (initIterRoutine c d).1 t).1.allocated) ∧
            ((initIterate (initIterRoutine c d).1 t).1.pagesDone =
              c.pagesDone + physPages (d :: t))
          rw [hstep]
          refine ⟨hrest.1, hrest.2.1, ?_⟩
          rw [hrest.2.2, hapd, hmin, hpp, if_pos hphys]
          omega
    · have hstep : initIterRoutine c d = (c, d) := by
        simp [initIterRoutine, hphys]
      have hbt : c.pagesDone + physPages t ≤ c.totalMemoryPages := by
        have hb2 := hbud
        rw [hpp, if_neg (by simpa using hphys)] at hb2
        omega
      have hrest := ih c hb haligt hmaxt hfzt hbt hne hsum hnp
      show (((initIterate (initIterRoutine c d).1 t).1.segments.map
          (fun s => s.freePages)).sum +
            (initIterate (initIterRoutine c d).1 t).1.allocated =
          (initIterate (initIterRoutine c d).1 t).1.pagesDone) ∧
        ((initIterate (initIterRoutine c d).1 t).1.nonPaged =
          (initIterate (initIterRoutine c d).1 t).1.allocated) ∧
        ((initIterate (initIterRoutine c d).1 t).1.pagesDone =
          c.pagesDone + physPages (d :: t))
      rw [hstep]
      refine ⟨hrest.1, hrest.2.1, ?_⟩
      rw [hrest.2.2, hpp, if_neg (by simpa using hphys)]
      omega

/-- Successful initialization establishes the counter invariant, for a
boot memory map of page-aligned descriptors below the maximum physical
address in which page zero is not free. -/
lemma counterInv_init (memoryMap : List MemoryDescriptor) (db : PhysDb)
    (mapOut : List MemoryDescriptor)
    (halign : ∀ d ∈ memoryMap, d.base % pageSize = 0 ∧ d.size % pageSize = 0)
    (hmax : ∀ d ∈ memoryMap, isPhysicalMemoryType d.type = true →
      d.base + d.size ≤ maxPhysicalAddress)
    (hfz : ∀ d ∈ memoryMap, isMemoryFreeType d.type = true → d.base ≠ 0)
    (hinit : mmpInitPhysicalPageAllocator memoryMap =
      Option.some (db, mapOut)) :
    CounterInv db := by
  have hp1 := initIterate_pass1 memoryMap ⟨0, 0, 0, 0, 0, false, [], 0, 0, false⟩
    rfl rfl hmax hfz
  simp only [mmpInitPhysicalPageAllocator] at hinit
  rw [hp1.2.2.2] at hinit
  split at hinit
  · exact absurd hinit (by simp)
  · rename_i map2 heq
    obtain ⟨hbytes2, halign2, hmax2, hfz2⟩ :=
      earlyAllocateMemory_spec _ memoryMap map2 heq halign hmax hfz
    have hphys2 : physPages map2 =
        (initIterate ⟨0, 0, 0, 0, 0, false, [], 0, 0, false⟩
          memoryMap).1.totalMemoryBytes / pageSize := by
      rw [physPages_eq map2 (fun d hd => (halign2 d hd).2), hbytes2, hp1.1]
      norm_num
    have hp2 := initIterate_pass2 map2
      ⟨0, 0, 0, 0,
       (initIterate ⟨0, 0, 0, 0, 0, false, [], 0, 0, false⟩
         memoryMap).1.totalMemoryBytes / pageSize, true, [], 0, 0,
       (initIterate ⟨0, 0, 0, 0, 0, false, [], 0, 0, false⟩
         memoryMap).1.pageZeroAllocated⟩
      rfl halign2 hmax2 hfz2
      (by
        show 0 + physPages map2 ≤
          (initIterate ⟨0, 0, 0, 0, 0, false, [], 0, 0, false⟩
            memoryMap).1.totalMemoryBytes / pageSize
        rw [hphys2]
        omega)
      (fun _ => rfl)
      (by simp)
      rfl
    rw [Option.some.injEq] at hinit
    have hdb := congrArg Prod.fst hinit
    simp only [] at hdb
    rw [← hdb]
    unfold CounterInv dbSumFreePages
    simp only []
    have h1 := hp2.1
    have h2 := hp2.2.1
    have h3 := hp2.2.2
    rw [hphys2] at h3
    simp only [InitIterContext.pagesDone, InitIterContext.allocated] at h1 h2 h3
    simp at h1 h2 h3
    refine ⟨?_, ?_, ?_⟩
    · omega
    · omega
    · omega

/-- C3 — every frame-database operation preserves (or, for initialization,
establishes) the counter invariant: the per-segment free counts sum to
total − allocated and non-paged ≤ allocated ≤ total.  Initialization is
stated for boot maps of page-aligned descriptors below the maximum
physical address with page zero not free; allocation for a segment the
find loop may return (enough free pages); free and lock for all-allocated
runs whose non-paged records are covered by the non-paged counter and
whose pageable records fit in the allocated-but-not-non-paged slack;
unlock and enable-paging unconditionally. -/
theorem C3_counter_invariant :
    (∀ (memoryMap : List MemoryDescriptor) (db : PhysDb)
        (mapOut : List MemoryDescriptor),
      (∀ d ∈ memoryMap, d.base % pageSize = 0 ∧ d.size % pageSize = 0) →
      (∀ d ∈ memoryMap, isPhysicalMemoryType d.type = true →
        d.base + d.size ≤ maxPhysicalAddress) →
      (∀ d ∈ memoryMap, isMemoryFreeType d.type = true → d.base ≠ 0) →
      mmpInitPhysicalPageAllocator memoryMap = Option.some (db, mapOut) →
      CounterInv db) ∧
    (∀ (db : PhysDb) (i off pageCount : Nat), i < db.segments.length →
      pageCount ≤ (db.segments.getD i default).freePages → CounterInv db →
      CounterInv (mmpAllocatePhysicalPagesFound db i off pageCount).db) ∧
    (∀ (db : PhysDb) (i off pageCount : Nat), i < db.segments.length →
      pageCount ≤ (db.segments.getD i default).freePages → CounterInv db →
      CounterInv (mmpAllocateIdentityMappableFound db i off pageCount)) ∧
    (∀ (db : PhysDb) (pn count i : Nat),
      findSegmentIdx db.segments pn = Option.some i →
      (∀ w ∈ segRun db i pn count, w ≠ 0) →
      (segRun db i pn count).countP recNonPaged ≤ db.nonPagedPages →
      db.nonPagedPages + (segRun db i pn count).countP recPageable ≤
        db.allocatedPages →
      CounterInv db → CounterInv (mmFreePhysicalPages db pn count).db) ∧
    (∀ (db : PhysDb) (pn count i : Nat),
      findSegmentIdx db.segments pn = Option.some i →
      (∀ w ∈ segRun db i pn count, w ≠ 0) →
      db.nonPagedPages + (segRun db i pn count).countP recPageable ≤
        db.allocatedPages →
      CounterInv db → CounterInv (mmpLockPhysicalPages db pn count).2) ∧
    (∀ (db : PhysDb) (pn count : Nat), CounterInv db →
      CounterInv (mmpUnlockPhysicalPages db pn count)) ∧
    (∀ (db : PhysDb) (pn : Nat) (pes : List Nat) (lockPages : Bool),
      CounterInv db →
      CounterInv (mmpEnablePagingOnPhysicalAddress db pn pes lockPages)) := by
  refine ⟨?_, ?_, ?_, ?_, ?_, ?_, ?_⟩
  · intro memoryMap db mapOut h1 h2 h3 h4
    exact counterInv_init memoryMap db mapOut h1 h2 h3 h4
  · intro db i off pageCount h1 h2 h3
    exact counterInv_allocFound db i off pageCount h1 h2 h3
  · intro db i off pageCount h1 h2 h3
    exact counterInv_allocIdentity db i off pageCount h1 h2 h3
  · intro db pn count i h1 h2 h3 h4 h5
    exact counterInv_free db pn count i h1 h2 h3 h4 h5
  · intro db pn count i h1 h2 h3 h4
    exact counterInv_lock db pn count i h1 h2 h3 h4
  · intro db pn count h1
    exact counterInv_unlock db pn count h1
  · intro db pn pes lockPages h1
    exact counterInv_enable db pn pes lockPages h1

/-- C3 witness — the invariant machine-checked on concrete instances of
all seven operations: a two-free-page boot map, the two allocation paths
on the warning database, a free of the two-frame run, a lock of the
page-cache database's run, an unlock, and an enable-paging call. -/
theorem C3_counter_invariant_witness :
    CounterInv (⟨[⟨1, 1, [1, 0]⟩], 2, 1, 1, fun _ => ⟨0, false⟩,
      MemoryWarningLevel.none, 0, 0, 0, 1, 1, 1, 1, 0⟩ : PhysDb) ∧
    CounterInv (mmpAllocatePhysicalPagesFound exWarnDb 0 0 2).db ∧
    CounterInv (mmpAllocateIdentityMappableFound exWarnDb 0 0 2) ∧
    CounterInv (mmFreePhysicalPages exFreeDb 0 2).db ∧
    CounterInv (mmpLockPhysicalPages exCacheDb 0 3).2 ∧
    CounterInv (mmpUnlockPhysicalPages exCacheDb 0 3) ∧
    CounterInv (mmpEnablePagingOnPhysicalAddress exCacheDb 0 [2] true) := by
  refine ⟨?_, ?_, ?_, ?_, ?_, ?_, ?_⟩
  · exact C3_counter_invariant.1 tinyBootMap
      ⟨[⟨1, 1, [1, 0]⟩], 2, 1, 1, fun _ => ⟨0, false⟩,
        MemoryWarningLevel.none, 0, 0, 0, 1, 1, 1, 1, 0⟩
      [⟨0, 4096, MemoryType.reserved⟩, ⟨4096, 4096, MemoryType.mmStructures⟩,
       ⟨8192, 4096, MemoryType.free⟩]
      (by decide) (by decide) (by decide) rfl
  · exact C3_counter_invariant.2.1 exWarnDb 0 0 2 (by decide) (by decide) (by decide)
  · exact C3_counter_invariant.2.2.1 exWarnDb 0 0 2 (by decide) (by decide)
      (by decide)
  · exact C3_counter_invariant.2.2.2.1 exFreeDb 0 2 0 (by decide) (by decide)
      (by decide) (by decide) (by decide)
  · exact C3_counter_invariant.2.2.2.2.1 exCacheDb 0 3 0 (by decide) (by decide)
      (by decide) (by decide)
  · exact C3_counter_invariant.2.2.2.2.2.1 exCacheDb 0 3 (by decide)
  · exact C3_counter_invariant.2.2.2.2.2.2 exCacheDb 0 [2] true (by decide)

end MinocaMm
